import Mathlib

/-!
Verification development for the safe arithmetic expression language of the
Belforge browser tools.  The language (tokenizer, function/constant registry,
recursive-descent parser/evaluator, evaluation facade) appears three times in
the repository, duplicated nearly verbatim:

* `CurveVis`    — the copy inside the progression-curve visualizer
                  (`tokenize` / `safeEval`),
* `SharedUtils` — the copy inside the shared-utilities module
                  (`SafeMathParser.tokenize` / `SafeMathParser.evaluate` and
                  the `safeEval` facade),
* `OfflineSim`  — the copy inside the offline-progress simulator
                  (`SafeMathParser` and the `evaluateFormula` facade).

JavaScript numbers are modelled by `JsVal`: finite values are carried as exact
rationals (unrounded), together with the IEEE special values `+Infinity`,
`-Infinity` and `NaN`.  Negative zero is identified with zero.  Every concrete
value appearing in a theorem below is exactly representable in binary64 and is
produced by operations that are exact in binary64, so no rounding distinguishes
this model from the float64 run on any path a theorem depends on.  Host `Math`
functions whose results are irrational (`sqrt`, `exp`, the trigonometric and
hyperbolic families, …) are modelled as `NaN` and are never relied on by any
theorem; the `Math` functions that the theorems do use (`min`, `max`, `pow` on
integral exponents, and the arithmetic operators) are modelled exactly.
-/

/- Allow the kernel-facing reducibility of the core rational operations, so
that concrete runs of the evaluators below can be checked with `decide`. -/
attribute [local semireducible] Rat.add Rat.mul Rat.sub Rat.inv

/-- Decidable equality of `Except` results, used to check concrete runs. -/
instance instDecEqExcept {e a : Type} [DecidableEq e] [DecidableEq a] :
    DecidableEq (Except e a) := fun x y =>
  match x, y with
  | .ok u, .ok v =>
      if h : u = v then .isTrue (by rw [h]) else .isFalse (by simp [h])
  | .error u, .error v =>
      if h : u = v then .isTrue (by rw [h]) else .isFalse (by simp [h])
  | .ok _, .error _ => .isFalse (by simp)
  | .error _, .ok _ => .isFalse (by simp)

namespace Belforge

/-- A JavaScript number: an exact finite rational, `+Infinity`, `-Infinity`,
or `NaN`. -/
inductive JsVal where
  | num (q : ℚ)
  | posInf
  | negInf
  | nan
deriving DecidableEq, Repr

namespace JsVal

/-- `Number.isNaN`. -/
def isNaN : JsVal → Bool
  | nan => true
  | _ => false

/-- `isFinite`: true exactly on finite numbers. -/
def isFiniteNum : JsVal → Bool
  | num _ => true
  | _ => false

/-- JS `+` on numbers. -/
def add : JsVal → JsVal → JsVal
  | nan, _ => nan
  | _, nan => nan
  | posInf, negInf => nan
  | negInf, posInf => nan
  | posInf, _ => posInf
  | negInf, _ => negInf
  | num _, posInf => posInf
  | num _, negInf => negInf
  | num a, num b => num (a + b)

/-- JS `-` (binary) on numbers. -/
def sub : JsVal → JsVal → JsVal
  | nan, _ => nan
  | _, nan => nan
  | posInf, posInf => nan
  | negInf, negInf => nan
  | posInf, _ => posInf
  | negInf, _ => negInf
  | num _, posInf => negInf
  | num _, negInf => posInf
  | num a, num b => num (a - b)

/-- JS unary `-`. -/
def neg : JsVal → JsVal
  | nan => nan
  | posInf => negInf
  | negInf => posInf
  | num a => num (-a)

/-- JS `*` on numbers. -/
def mul : JsVal → JsVal → JsVal
  | nan, _ => nan
  | _, nan => nan
  | posInf, posInf => posInf
  | posInf, negInf => negInf
  | negInf, posInf => negInf
  | negInf, negInf => posInf
  | posInf, num b => if 0 < b then posInf else if b < 0 then negInf else nan
  | negInf, num b => if 0 < b then negInf else if b < 0 then posInf else nan
  | num a, posInf => if 0 < a then posInf else if a < 0 then negInf else nan
  | num a, negInf => if 0 < a then negInf else if a < 0 then posInf else nan
  | num a, num b => num (a * b)

/-- JS `/` on numbers (division by zero yields a signed infinity, `0/0` is
`NaN`; the sign-of-negative-zero corner is identified with positive zero). -/
def div : JsVal → JsVal → JsVal
  | nan, _ => nan
  | _, nan => nan
  | posInf, posInf => nan
  | posInf, negInf => nan
  | negInf, posInf => nan
  | negInf, negInf => nan
  | posInf, num b => if b < 0 then negInf else posInf
  | negInf, num b => if b < 0 then posInf else negInf
  | num _, posInf => num 0
  | num _, negInf => num 0
  | num a, num b =>
      if b = 0 then (if 0 < a then posInf else if a < 0 then negInf else nan)
      else num (a / b)

/-- Truncation of a rational toward zero. -/
def qtrunc (q : ℚ) : ℤ := if 0 ≤ q then ⌊q⌋ else ⌈q⌉

/-- JS `%` (remainder): `a % b = a - b * trunc(a / b)` for finite nonzero `b`,
`NaN` when the divisor is zero or the dividend is infinite, and `a` itself when
the divisor is infinite. -/
def mod : JsVal → JsVal → JsVal
  | nan, _ => nan
  | _, nan => nan
  | posInf, _ => nan
  | negInf, _ => nan
  | num a, posInf => num a
  | num a, negInf => num a
  | num a, num b =>
      if b = 0 then nan else num (a - b * (qtrunc (a / b) : ℚ))

/-- Is this rational an odd integer? (Used by the `(-Infinity) ** e` case of
`Math.pow`.) -/
def isOddInt (q : ℚ) : Bool := q.den = 1 && q.num % 2 ≠ 0

/-- `Math.pow`, following the ECMAScript `Number::exponentiate` case analysis.
The only approximated branch is a finite positive non-unit base raised to a
finite non-integral exponent, whose true value is irrational in general; it is
modelled as `NaN` and no theorem below depends on it. -/
def pow : JsVal → JsVal → JsVal
  | _, nan => nan
  | a, posInf =>
      match a with
      | nan => nan
      | posInf => posInf
      | negInf => posInf
      | num b => if b = 1 ∨ b = -1 then nan else if 1 < |b| then posInf else num 0
  | a, negInf =>
      match a with
      | nan => nan
      | posInf => num 0
      | negInf => num 0
      | num b => if b = 1 ∨ b = -1 then nan else if 1 < |b| then num 0 else posInf
  | a, num e =>
      if e = 0 then num 1
      else
        match a with
        | nan => nan
        | posInf => if 0 < e then posInf else num 0
        | negInf =>
            if 0 < e then (if isOddInt e then negInf else posInf)
            else num 0
        | num b =>
            if b = 0 then (if 0 < e then num 0 else posInf)
            else if e.den = 1 then num (b ^ e.num)
            else if b = 1 then num 1
            else nan

/-- Order on non-`NaN` values (`-Infinity` least, `+Infinity` greatest). -/
def le : JsVal → JsVal → Bool
  | nan, _ => false
  | _, nan => false
  | negInf, _ => true
  | _, posInf => true
  | posInf, _ => false
  | _, negInf => false
  | num a, num b => a ≤ b

/-- Binary minimum with `NaN` propagation, as folded by `Math.min`. -/
def min2 (a b : JsVal) : JsVal :=
  if a.isNaN || b.isNaN then nan else if le a b then a else b

/-- Binary maximum with `NaN` propagation, as folded by `Math.max`. -/
def max2 (a b : JsVal) : JsVal :=
  if a.isNaN || b.isNaN then nan else if le a b then b else a

/-- `Math.min(...args)` (no arguments gives `+Infinity`, any `NaN` argument
gives `NaN`). -/
def minList (args : List JsVal) : JsVal := args.foldl min2 posInf

/-- `Math.max(...args)` (no arguments gives `-Infinity`, any `NaN` argument
gives `NaN`). -/
def maxList (args : List JsVal) : JsVal := args.foldl max2 negInf

/-- `Math.abs`. -/
def absJ : JsVal → JsVal
  | nan => nan
  | posInf => posInf
  | negInf => posInf
  | num q => num |q|

/-- `Math.floor`. -/
def floorJ : JsVal → JsVal
  | nan => nan
  | posInf => posInf
  | negInf => negInf
  | num q => num (⌊q⌋ : ℚ)

/-- `Math.ceil`. -/
def ceilJ : JsVal → JsVal
  | nan => nan
  | posInf => posInf
  | negInf => negInf
  | num q => num (⌈q⌉ : ℚ)

/-- `Math.round` (half-up, toward positive infinity on ties). -/
def roundJ : JsVal → JsVal
  | nan => nan
  | posInf => posInf
  | negInf => negInf
  | num q => num (⌊q + 1/2⌋ : ℚ)

/-- `Math.trunc`. -/
def truncJ : JsVal → JsVal
  | nan => nan
  | posInf => posInf
  | negInf => negInf
  | num q => num (qtrunc q : ℚ)

/-- `Math.sign` (the negative-zero result is identified with zero). -/
def signJ : JsVal → JsVal
  | nan => nan
  | posInf => num 1
  | negInf => num (-1)
  | num q => num (if 0 < q then 1 else if q < 0 then -1 else 0)

end JsVal

/-- Value of a list of decimal digit characters. -/
def digitsToNat (ds : List Char) : ℕ :=
  ds.foldl (fun acc c => 10 * acc + (c.toNat - 48)) 0

/-- Exact model of the host `parseFloat` on the strings produced by the number
scanners below: the longest valid prefix `[+-]? digits [. digits]? ([eE][+-]?digits)?`
is converted (at least one digit must occur in the integer or fraction part,
otherwise the result is `none`, i.e. `NaN`).  The value is the exact unrounded
decimal; every concrete literal appearing in a theorem below is exactly
representable in binary64, so the absence of rounding is unobservable there. -/
def parseFloatQ (s : String) : Option ℚ :=
  let cs := s.data
  let sgnSplit : ℚ × List Char :=
    match cs with
    | '+' :: r => (1, r)
    | '-' :: r => (-1, r)
    | _ => (1, cs)
  let sgn := sgnSplit.1
  let cs1 := sgnSplit.2
  let intDs := cs1.takeWhile Char.isDigit
  let rest1 := cs1.dropWhile Char.isDigit
  let fracSplit : List Char × List Char :=
    match rest1 with
    | '.' :: r => (r.takeWhile Char.isDigit, r.dropWhile Char.isDigit)
    | _ => ([], rest1)
  let fracDs := fracSplit.1
  let rest2 := fracSplit.2
  if intDs.isEmpty && fracDs.isEmpty then none
  else
    let mant : ℚ := (digitsToNat intDs : ℚ) + (digitsToNat fracDs : ℚ) / (10 : ℚ) ^ fracDs.length
    let expo : ℤ :=
      match rest2 with
      | e :: r3 =>
          if e == 'e' || e == 'E' then
            let esgnSplit : ℤ × List Char :=
              match r3 with
              | '+' :: r => (1, r)
              | '-' :: r => (-1, r)
              | _ => (1, r3)
            let eds := esgnSplit.2.takeWhile Char.isDigit
            if eds.isEmpty then 0 else esgnSplit.1 * (digitsToNat eds : ℤ)
          else 0
      | [] => 0
    some (sgn * mant * (10 : ℚ) ^ expo)

/-- `parseFloat` as used directly by the tokenizers that perform no `NaN`
check: a failed parse becomes a `NaN` number value. -/
def floatOrNaN (s : String) : JsVal :=
  match parseFloatQ s with
  | some q => JsVal.num q
  | none => JsVal.nan

/-- A lexical token: `{type: 'number'|'identifier'|'operator', value: …}`. -/
inductive Token where
  | num (v : JsVal)
  | ident (s : String)
  | op (s : String)
deriving DecidableEq, Repr

/-- The `token.value === "sym"` test of the source for an operator symbol:
true exactly on an operator token carrying that symbol.  (A number value is
never `===` to a string, and the tokenizers never emit an identifier token
whose text is an operator symbol, so this models the untyped `.value`
comparison faithfully on all reachable token sequences.) -/
def Token.isOp : Token → String → Bool
  | .op s, t => s == t
  | _, _ => false

/-- Rendering of a value inside an error message (`Unexpected token: …`).
The decimal rendering of a non-integral rational is approximated by the `ℚ`
printer; no theorem below inspects such a message. -/
def JsVal.toMsg : JsVal → String
  | .num q => if q.den = 1 then toString q.num else toString q
  | .posInf => "Infinity"
  | .negInf => "-Infinity"
  | .nan => "NaN"

/-- The `${token.value}` interpolation used in error messages. -/
def Token.valueStr : Token → String
  | .num v => v.toMsg
  | .ident s => s
  | .op s => s

/-- A failure: either a thrown `Error` with its message, or the fuel marker of
the embedding (proved unreachable for the fuel the evaluators use). -/
inductive JsErr where
  | err (msg : String)
  | fuel
deriving DecidableEq, Repr

/-- Caller-supplied variable bindings. -/
abbrev Vars := List (String × JsVal)

/-- The constant registry, identical in all three copies of the source:
each name is bound to the exact binary64 value of the corresponding host
constant. -/
def allowedConstants : String → Option ℚ
  | "PI" => some ((884279719003555 : ℚ) / 281474976710656)
  | "E" => some ((6121026514868073 : ℚ) / 2251799813685248)
  | "LN2" => some ((6243314768165359 : ℚ) / 9007199254740992)
  | "LN10" => some ((2592480341699211 : ℚ) / 1125899906842624)
  | "LOG2E" => some ((3248660424278399 : ℚ) / 2251799813685248)
  | "LOG10E" => some ((7823553867474189 : ℚ) / 18014398509481984)
  | "SQRT2" => some ((6369051672525773 : ℚ) / 4503599627370496)
  | "SQRT1_2" => some ((6369051672525773 : ℚ) / 9007199254740992)
  | _ => none

/-- A JS argument that was not supplied is `undefined`; the `Math` functions
coerce `undefined` to `NaN`.  Extra arguments beyond a function's arity are
ignored by JS. -/
def argD (args : List JsVal) (i : ℕ) : JsVal := args.getD i JsVal.nan

/-- Model of the host `Math[name](...args)` dispatch for the whitelisted
function names.  The functions with exactly computable semantics (`abs`,
`ceil`, `floor`, `round`, `trunc`, `sign`, `pow`, `min`, `max`) are modelled
exactly; the remaining whitelisted functions (`sqrt`, `cbrt`, `exp`, `expm1`,
`log`, `log2`, `log10`, `log1p`, the trigonometric and hyperbolic families,
`atan2`, `hypot`) return irrational numbers in general and are modelled as
`NaN`; no theorem below depends on any of their values. -/
def mathApply : String → List JsVal → JsVal
  | "abs", args => JsVal.absJ (argD args 0)
  | "ceil", args => JsVal.ceilJ (argD args 0)
  | "floor", args => JsVal.floorJ (argD args 0)
  | "round", args => JsVal.roundJ (argD args 0)
  | "trunc", args => JsVal.truncJ (argD args 0)
  | "sign", args => JsVal.signJ (argD args 0)
  | "pow", args => JsVal.pow (argD args 0) (argD args 1)
  | "min", args => JsVal.minList args
  | "max", args => JsVal.maxList args
  | _, _ => JsVal.nan

/-- `/[a-zA-Z_]/`. -/
def isIdentStart (c : Char) : Bool := c.isAlpha || c == '_'

/-- `/[a-zA-Z0-9_]/`. -/
def isIdentChar (c : Char) : Bool := c.isAlpha || c.isDigit || c == '_'

/-- `/[0-9.]/`. -/
def isNumStart (c : Char) : Bool := c.isDigit || c == '.'

/-- An identifier run: accumulate letters, digits and underscores. -/
def scanIdent (cs : List Char) : String × List Char :=
  (String.mk (cs.takeWhile isIdentChar), cs.dropWhile isIdentChar)

theorem dropWhile_length_le (p : Char → Bool) (cs : List Char) :
    (cs.dropWhile p).length ≤ cs.length := by
  induction cs with
  | nil => simp [List.dropWhile]
  | cons c cs ih =>
      by_cases h : p c <;> simp [List.dropWhile, h] <;> omega

theorem scanIdent_rest_le (cs : List Char) :
    (scanIdent cs).2.length ≤ cs.length :=
  dropWhile_length_le _ cs

theorem scanIdent_rest_lt (c : Char) (rest : List Char)
    (h : isIdentChar c = true) :
    (scanIdent (c :: rest)).2.length ≤ rest.length := by
  simp [scanIdent, List.dropWhile, h, dropWhile_length_le]

/-- `peek() && peek().value === sym` (with `peek().type === 'operator'` where
the source checks it): is the token at `pos` an operator token carrying `sym`?
(`false` when `pos` is past the end.) -/
def peekIsOp (toks : List Token) (pos : Nat) (sym : String) : Bool :=
  match toks[pos]? with
  | some t => t.isOp sym
  | none => false

namespace SharedUtils

/-- The number scanner of the shared-utilities tokenizer, written as a
one-character state machine: digits, at most one decimal point (and none after
the exponent marker), at most one `e`/`E` exponent marker (only after at least
one accumulated character).  `afterExp` records that the previous character
was the just-consumed exponent marker, in which case a single sign character
is also consumed — this is the inline sign handling of the source loop, which
consumes the sign in the same iteration as the marker. -/
def scanNum : List Char → String → Bool → Bool → Bool → String × List Char
  | [], acc, _, _, _ => (acc, [])
  | c :: rest, acc, hasDec, hasExp, afterExp =>
    if afterExp && (c == '+' || c == '-') then
      scanNum rest (acc.push c) hasDec hasExp false
    else if c.isDigit then scanNum rest (acc.push c) hasDec hasExp false
    else if c == '.' && !hasDec && !hasExp then scanNum rest (acc.push c) true hasExp false
    else if (c == 'e' || c == 'E') && !hasExp && acc.length > 0 then
      scanNum rest (acc.push c) hasDec true true
    else (acc, c :: rest)

theorem scanNum_rest_le (cs : List Char) :
    ∀ (acc : String) (hd he ae : Bool),
      (scanNum cs acc hd he ae).2.length ≤ cs.length := by
  induction cs with
  | nil => intro acc hd he ae; simp [scanNum]
  | cons c rest ih =>
      intro acc hd he ae
      rw [scanNum]
      split_ifs <;> first
        | (exact (ih _ _ _ _).trans (by simp))
        | simp
  
theorem scanNum_head_le (c : Char) (rest : List Char)
    (h : isNumStart c = true) :
    (scanNum (c :: rest) "" false false false).2.length ≤ rest.length := by
  by_cases hd : c.isDigit = true
  · have hstep : scanNum (c :: rest) "" false false false =
        scanNum rest ("".push c) false false false := by
      rw [scanNum]
      simp [hd]
    rw [hstep]
    exact scanNum_rest_le rest _ false false false
  · have hdot : (c == '.') = true := by
      simp only [isNumStart, Bool.or_eq_true_iff] at h
      simpa [hd] using h
    have hstep : scanNum (c :: rest) "" false false false =
        scanNum rest ("".push c) true false false := by
      rw [scanNum]
      simp [hd, hdot]
    rw [hstep]
    exact scanNum_rest_le rest _ true false false

/-- The malformed-number test `/[eE][+-]?$/.test(num) || /\.$/.test(num)`:
the captured text ends in a bare decimal point, a bare exponent marker, or an
exponent marker followed only by a sign. -/
def malformedNum (s : String) : Bool :=
  match s.data.reverse with
  | [] => false
  | c :: rest =>
      c == '.' || c == 'e' || c == 'E' ||
        ((c == '+' || c == '-') &&
          (match rest with
           | d :: _ => d == 'e' || d == 'E'
           | [] => false))

/-- The shared-utilities tokenizer loop (`SafeMathParser.tokenize`).  Each
step consumes at least one character, so the fuel `cs.length + 1` supplied by
`tokenize` is proved sufficient below (the `fuel` marker is unreachable).  A
captured number whose `parseFloat` is `NaN` or which matches the malformed
patterns fails with `Invalid number`; the identifier rule strips a leading
`Math.` prefix; `**` is matched before the single-character operators; `^` has
a dedicated failure message. -/
def tokenizeGo : Nat → List Char → Except JsErr (List Token)
  | 0, _ => .error .fuel
  | _ + 1, [] => .ok []
  | f + 1, c :: rest =>
    if c.isWhitespace then tokenizeGo f rest
    else if isNumStart c then
      match parseFloatQ (scanNum (c :: rest) "" false false false).1 with
      | none =>
          .error (.err ("Invalid number: " ++ (scanNum (c :: rest) "" false false false).1))
      | some q =>
          if malformedNum (scanNum (c :: rest) "" false false false).1 then
            .error (.err ("Invalid number: " ++ (scanNum (c :: rest) "" false false false).1))
          else do
            let toks ← tokenizeGo f (scanNum (c :: rest) "" false false false).2
            .ok (Token.num (JsVal.num q) :: toks)
    else if isIdentStart c then
      if (scanIdent (c :: rest)).1 == "Math" &&
         (scanIdent (c :: rest)).2.head? == some '.' then
        do
          let toks ← tokenizeGo f (scanIdent (scanIdent (c :: rest)).2.tail).2
          .ok (Token.ident (scanIdent (scanIdent (c :: rest)).2.tail).1 :: toks)
      else do
        let toks ← tokenizeGo f (scanIdent (c :: rest)).2
        .ok (Token.ident (scanIdent (c :: rest)).1 :: toks)
    else if c == '*' && rest.head? == some '*' then do
      let toks ← tokenizeGo f rest.tail
      .ok (Token.op "**" :: toks)
    else if c == '+' || c == '-' || c == '*' || c == '/' || c == '%' ||
            c == '(' || c == ')' || c == ',' || c == '.' then do
      let toks ← tokenizeGo f rest
      .ok (Token.op (String.singleton c) :: toks)
    else if c == '^' then .error (.err "Use ** or pow(a, b) for exponents, not ^")
    else .error (.err ("Unexpected character: " ++ String.singleton c))

/-- `SafeMathParser.tokenize` of the shared-utilities module (the fuel
`length + 1` is proved sufficient below). -/
def tokenize (s : String) : Except JsErr (List Token) :=
  tokenizeGo (s.data.length + 1) s.data

/-- The function whitelist `allowedFunctions` of the shared-utilities module. -/
def allowedFunctions : List String :=
  ["abs", "ceil", "floor", "round", "trunc",
   "sqrt", "cbrt", "pow", "exp", "expm1",
   "log", "log2", "log10", "log1p",
   "sin", "cos", "tan", "asin", "acos", "atan", "atan2",
   "sinh", "cosh", "tanh", "asinh", "acosh", "atanh",
   "min", "max", "hypot", "sign", "clamp", "lerp"]

/-- Function-call validation and execution of the shared-utilities
`parsePrimary`: the name must be whitelisted; `clamp` and `lerp` are
special-cased with an exact-arity check and a dedicated error message; every
other whitelisted name is dispatched to `Math[name](...args)` with no arity
check at all. -/
def callFn (name : String) (args : List JsVal) : Except JsErr JsVal :=
  if allowedFunctions.contains name then
    if name = "clamp" then
      match args with
      | [a, b, c] => .ok (JsVal.min2 (JsVal.max2 a b) c)
      | _ => .error (.err "clamp requires 3 arguments: clamp(value, min, max)")
    else if name = "lerp" then
      match args with
      | [a, b, t] => .ok (JsVal.add a (JsVal.mul (JsVal.sub b a) t))
      | _ => .error (.err "lerp requires 3 arguments: lerp(a, b, t)")
    else .ok (mathApply name args)
  else .error (.err ("Unknown or disallowed function: " ++ name))

/-- Bare-identifier resolution of the shared-utilities `parsePrimary`:
variables are checked BEFORE constants. -/
def resolveName (vars : Vars) (name : String) (pos : Nat) :
    Except JsErr (JsVal × Nat) :=
  match List.lookup name vars with
  | some v => .ok (v, pos + 1)
  | none =>
      match allowedConstants name with
      | some q => .ok (JsVal.num q, pos + 1)
      | none => .error (.err ("Unknown variable or constant: " ++ name))

mutual

/-- `parseExpression`. -/
def parseExpr (toks : List Token) (vars : Vars) :
    Nat → Nat → Except JsErr (JsVal × Nat)
  | 0, _ => .error .fuel
  | f + 1, pos => parseAddSub toks vars f pos
termination_by structural f _ => f

/-- `parseAddSub` (left-associative `+`/`-`). -/
def parseAddSub (toks : List Token) (vars : Vars) :
    Nat → Nat → Except JsErr (JsVal × Nat)
  | 0, _ => .error .fuel
  | f + 1, pos => do
      let (l, p) ← parseMulDiv toks vars f pos
      parseAddSubLoop toks vars f l p
termination_by structural f _ => f

/-- The folding `while` loop of `parseAddSub`. -/
def parseAddSubLoop (toks : List Token) (vars : Vars) :
    Nat → JsVal → Nat → Except JsErr (JsVal × Nat)
  | 0, _, _ => .error .fuel
  | f + 1, left, pos =>
      if peekIsOp toks pos "+" || peekIsOp toks pos "-" then do
        let (r, p) ← parseMulDiv toks vars f (pos + 1)
        parseAddSubLoop toks vars f
          (if peekIsOp toks pos "+" then JsVal.add left r else JsVal.sub left r) p
      else .ok (left, pos)
termination_by structural f _ _ => f

/-- `parseMulDiv` (left-associative `*`/`/`/`%`). -/
def parseMulDiv (toks : List Token) (vars : Vars) :
    Nat → Nat → Except JsErr (JsVal × Nat)
  | 0, _ => .error .fuel
  | f + 1, pos => do
      let (l, p) ← parsePower toks vars f pos
      parseMulDivLoop toks vars f l p
termination_by structural f _ => f

/-- The folding `while` loop of `parseMulDiv`. -/
def parseMulDivLoop (toks : List Token) (vars : Vars) :
    Nat → JsVal → Nat → Except JsErr (JsVal × Nat)
  | 0, _, _ => .error .fuel
  | f + 1, left, pos =>
      if peekIsOp toks pos "*" || peekIsOp toks pos "/" || peekIsOp toks pos "%" then do
        let (r, p) ← parsePower toks vars f (pos + 1)
        parseMulDivLoop toks vars f
          (if peekIsOp toks pos "*" then JsVal.mul left r
           else if peekIsOp toks pos "/" then JsVal.div left r
           else JsVal.mod left r) p
      else .ok (left, pos)
termination_by structural f _ _ => f

/-- `parsePower`: the left operand comes from `parseUnary`; the right operand
of `**` recursively calls `parsePower` again (right associativity). -/
def parsePower (toks : List Token) (vars : Vars) :
    Nat → Nat → Except JsErr (JsVal × Nat)
  | 0, _ => .error .fuel
  | f + 1, pos => do
      let (l, p) ← parseUnary toks vars f pos
      if peekIsOp toks p "**" then do
        let (r, p2) ← parsePower toks vars f (p + 1)
        .ok (JsVal.pow l r, p2)
      else .ok (l, p)
termination_by structural f _ => f

/-- `parseUnary`: a leading `+`/`-` applies to the result of `parseUnary`
(so it binds to the primary below it, before any `**` is seen). -/
def parseUnary (toks : List Token) (vars : Vars) :
    Nat → Nat → Except JsErr (JsVal × Nat)
  | 0, _ => .error .fuel
  | f + 1, pos =>
      if peekIsOp toks pos "+" || peekIsOp toks pos "-" then do
        let (v, p) ← parseUnary toks vars f (pos + 1)
        .ok ((if peekIsOp toks pos "-" then JsVal.neg v else v), p)
      else parsePrimary toks vars f pos
termination_by structural f _ => f

/-- `parsePrimary`: number literal, parenthesized expression, or identifier
(function call when directly followed by `(`, otherwise variable-then-constant
resolution). -/
def parsePrimary (toks : List Token) (vars : Vars) :
    Nat → Nat → Except JsErr (JsVal × Nat)
  | 0, _ => .error .fuel
  | f + 1, pos =>
      match toks[pos]? with
      | none => .error (.err "Unexpected end of expression")
      | some (.num v) => .ok (v, pos + 1)
      | some t =>
          if t.isOp "(" then do
            let (v, p) ← parseExpr toks vars f (pos + 1)
            if peekIsOp toks p ")" then .ok (v, p + 1)
            else .error (.err "Missing closing parenthesis")
          else
            match t with
            | .ident name =>
                if peekIsOp toks (pos + 1) "(" then do
                  let (args, p) ← parseArgs toks vars f (pos + 2)
                  if peekIsOp toks p ")" then do
                    let v ← callFn name args
                    .ok (v, p + 1)
                  else .error (.err "Missing closing parenthesis for function call")
                else resolveName vars name pos
            | _ => .error (.err ("Unexpected token: " ++ t.valueStr))
termination_by structural f _ => f

/-- The argument-list parsing of `parsePrimary`: no argument when the next
token is `)` (or the input is exhausted), otherwise a first `parseExpression`
followed by the comma loop. -/
def parseArgs (toks : List Token) (vars : Vars) :
    Nat → Nat → Except JsErr (List JsVal × Nat)
  | 0, _ => .error .fuel
  | f + 1, pos =>
      if (toks[pos]?).isSome && !peekIsOp toks pos ")" then do
        let (a, p) ← parseExpr toks vars f pos
        let (more, p2) ← parseArgsLoop toks vars f p
        .ok (a :: more, p2)
      else .ok ([], pos)
termination_by structural f _ => f

/-- The `while (peek().value === ',')` loop of the argument-list parsing. -/
def parseArgsLoop (toks : List Token) (vars : Vars) :
    Nat → Nat → Except JsErr (List JsVal × Nat)
  | 0, _ => .error .fuel
  | f + 1, pos =>
      if peekIsOp toks pos "," then do
        let (a, p) ← parseExpr toks vars f (pos + 1)
        let (more, p2) ← parseArgsLoop toks vars f p
        .ok (a :: more, p2)
      else .ok ([], pos)
termination_by structural f _ => f

end

/-- `SafeMathParser.evaluate` of the shared-utilities module: tokenize, run
the recursive-descent parser (the fuel `8 * toks.length + 8` is proved
sufficient below), and reject leftover tokens. -/
def evaluate (expr : String) (vars : Vars) : Except JsErr JsVal := do
  let toks ← tokenize expr
  let (v, p) ← parseExpr toks vars (8 * toks.length + 8) 0
  if h : p < toks.length then
    .error (.err ("Unexpected token: " ++ (toks.get ⟨p, h⟩).valueStr))
  else .ok v

/-- The `safeEval` facade of the shared-utilities module: a `NaN` or infinite
final result is rejected with `Expression must return a valid number`. -/
def safeEval (expr : String) (vars : Vars) : Except JsErr JsVal := do
  let r ← evaluate expr vars
  if r.isNaN || !r.isFiniteNum then
    .error (.err "Expression must return a valid number")
  else .ok r

end SharedUtils

namespace CurveVis

/-- The curve-visualizer tokenizer loop: a number run greedily takes every
digit or decimal point and pushes `parseFloat` of the captured text with no
validity check (so a `NaN`-valued number token can be emitted); identifiers
have no `Math.` stripping; the single-character operator set has no `.`;
`^` has a dedicated failure message.  Each step consumes at least one
character, so the fuel `cs.length + 1` supplied by `tokenize` is sufficient. -/
def tokenizeGo : Nat → List Char → Except JsErr (List Token)
  | 0, _ => .error .fuel
  | _ + 1, [] => .ok []
  | f + 1, c :: rest =>
    if c.isWhitespace then tokenizeGo f rest
    else if isNumStart c then
      do
        let toks ← tokenizeGo f ((c :: rest).dropWhile isNumStart)
        .ok (Token.num (floatOrNaN (String.mk ((c :: rest).takeWhile isNumStart))) :: toks)
    else if isIdentStart c then
      do
        let toks ← tokenizeGo f (scanIdent (c :: rest)).2
        .ok (Token.ident (scanIdent (c :: rest)).1 :: toks)
    else if c == '*' && rest.head? == some '*' then do
      let toks ← tokenizeGo f rest.tail
      .ok (Token.op "**" :: toks)
    else if c == '+' || c == '-' || c == '*' || c == '/' ||
            c == '(' || c == ')' || c == ',' || c == '%' then do
      let toks ← tokenizeGo f rest
      .ok (Token.op (String.singleton c) :: toks)
    else if c == '^' then .error (.err "Use ** or pow(a, b) for exponents, not ^")
    else .error (.err ("Unexpected character: " ++ String.singleton c))

/-- `tokenize` of the curve visualizer. -/
def tokenize (s : String) : Except JsErr (List Token) :=
  tokenizeGo (s.data.length + 1) s.data

/-- The whitelisted `functions` map of the curve visualizer, keyed by name.
`clamp` and `lerp` are plain arrow functions with NO arity check: a missing
argument is `undefined` and propagates as `NaN` through `Math.min`/`Math.max`
and arithmetic (modelled by `argD`).  The transcendental entries are modelled
as `NaN` (see `mathApply`); no theorem depends on their values. -/
def functions : String → Option (List JsVal → JsVal)
  | "abs" => some fun args => JsVal.absJ (argD args 0)
  | "ceil" => some fun args => JsVal.ceilJ (argD args 0)
  | "floor" => some fun args => JsVal.floorJ (argD args 0)
  | "round" => some fun args => JsVal.roundJ (argD args 0)
  | "sqrt" => some fun _ => JsVal.nan
  | "cbrt" => some fun _ => JsVal.nan
  | "log" => some fun _ => JsVal.nan
  | "log2" => some fun _ => JsVal.nan
  | "log10" => some fun _ => JsVal.nan
  | "exp" => some fun _ => JsVal.nan
  | "sin" => some fun _ => JsVal.nan
  | "cos" => some fun _ => JsVal.nan
  | "tan" => some fun _ => JsVal.nan
  | "asin" => some fun _ => JsVal.nan
  | "acos" => some fun _ => JsVal.nan
  | "atan" => some fun _ => JsVal.nan
  | "sinh" => some fun _ => JsVal.nan
  | "cosh" => some fun _ => JsVal.nan
  | "tanh" => some fun _ => JsVal.nan
  | "sign" => some fun args => JsVal.signJ (argD args 0)
  | "trunc" => some fun args => JsVal.truncJ (argD args 0)
  | "pow" => some fun args => JsVal.pow (argD args 0) (argD args 1)
  | "min" => some fun args => JsVal.minList args
  | "max" => some fun args => JsVal.maxList args
  | "clamp" => some fun args =>
      JsVal.min2 (JsVal.max2 (argD args 0) (argD args 1)) (argD args 2)
  | "lerp" => some fun args =>
      JsVal.add (argD args 0) (JsVal.mul (JsVal.sub (argD args 1) (argD args 0)) (argD args 2))
  | _ => none

mutual

/-- `parseExpression` of the curve visualizer. -/
def parseExpr (toks : List Token) (vars : Vars) :
    Nat → Nat → Except JsErr (JsVal × Nat)
  | 0, _ => .error .fuel
  | f + 1, pos => parseAdditive toks vars f pos
termination_by structural f _ => f

/-- `parseAdditive` (left-associative `+`/`-`). -/
def parseAdditive (toks : List Token) (vars : Vars) :
    Nat → Nat → Except JsErr (JsVal × Nat)
  | 0, _ => .error .fuel
  | f + 1, pos => do
      let (l, p) ← parseMultiplicative toks vars f pos
      parseAdditiveLoop toks vars f l p
termination_by structural f _ => f

/-- The folding `while` loop of `parseAdditive`. -/
def parseAdditiveLoop (toks : List Token) (vars : Vars) :
    Nat → JsVal → Nat → Except JsErr (JsVal × Nat)
  | 0, _, _ => .error .fuel
  | f + 1, left, pos =>
      if peekIsOp toks pos "+" || peekIsOp toks pos "-" then do
        let (r, p) ← parseMultiplicative toks vars f (pos + 1)
        parseAdditiveLoop toks vars f
          (if peekIsOp toks pos "+" then JsVal.add left r else JsVal.sub left r) p
      else .ok (left, pos)
termination_by structural f _ _ => f

/-- `parseMultiplicative` (left-associative `*`/`/`/`%`). -/
def parseMultiplicative (toks : List Token) (vars : Vars) :
    Nat → Nat → Except JsErr (JsVal × Nat)
  | 0, _ => .error .fuel
  | f + 1, pos => do
      let (l, p) ← parsePower toks vars f pos
      parseMultiplicativeLoop toks vars f l p
termination_by structural f _ => f

/-- The folding `while` loop of `parseMultiplicative`. -/
def parseMultiplicativeLoop (toks : List Token) (vars : Vars) :
    Nat → JsVal → Nat → Except JsErr (JsVal × Nat)
  | 0, _, _ => .error .fuel
  | f + 1, left, pos =>
      if peekIsOp toks pos "*" || peekIsOp toks pos "/" || peekIsOp toks pos "%" then do
        let (r, p) ← parsePower toks vars f (pos + 1)
        parseMultiplicativeLoop toks vars f
          (if peekIsOp toks pos "*" then JsVal.mul left r
           else if peekIsOp toks pos "/" then JsVal.div left r
           else JsVal.mod left r) p
      else .ok (left, pos)
termination_by structural f _ _ => f

/-- `parsePower` of the curve visualizer: left operand from `parseUnary`,
right operand of `**` recursively from `parsePower` (right associativity). -/
def parsePower (toks : List Token) (vars : Vars) :
    Nat → Nat → Except JsErr (JsVal × Nat)
  | 0, _ => .error .fuel
  | f + 1, pos => do
      let (l, p) ← parseUnary toks vars f pos
      if peekIsOp toks p "**" then do
        let (r, p2) ← parsePower toks vars f (p + 1)
        .ok (JsVal.pow l r, p2)
      else .ok (l, p)
termination_by structural f _ => f

/-- `parseUnary` of the curve visualizer. -/
def parseUnary (toks : List Token) (vars : Vars) :
    Nat → Nat → Except JsErr (JsVal × Nat)
  | 0, _ => .error .fuel
  | f + 1, pos =>
      if peekIsOp toks pos "+" || peekIsOp toks pos "-" then do
        let (v, p) ← parseUnary toks vars f (pos + 1)
        .ok ((if peekIsOp toks pos "-" then JsVal.neg v else v), p)
      else parsePrimary toks vars f pos
termination_by structural f _ => f

/-- `parsePrimary` of the curve visualizer.  Differences from the
shared-utilities copy: the function is looked up BEFORE the arguments are
parsed, with message `Unknown function: …`; a dead `Math.`-prefix branch
throws a dedicated message; the closing-parenthesis message says `in function
call`; and a bare identifier checks CONSTANTS BEFORE VARIABLES, failing with
`Unknown variable: …`. -/
def parsePrimary (toks : List Token) (vars : Vars) :
    Nat → Nat → Except JsErr (JsVal × Nat)
  | 0, _ => .error .fuel
  | f + 1, pos =>
      match toks[pos]? with
      | none => .error (.err "Unexpected end of expression")
      | some (.num v) => .ok (v, pos + 1)
      | some t =>
          if t.isOp "(" then do
            let (v, p) ← parseExpr toks vars f (pos + 1)
            if peekIsOp toks p ")" then .ok (v, p + 1)
            else .error (.err "Missing closing parenthesis")
          else
            match t with
            | .ident name =>
                if peekIsOp toks (pos + 1) "(" then
                  if name = "Math" && peekIsOp toks (pos + 2) "." then
                    .error (.err "Use function names directly (e.g., \"pow\" not \"Math.pow\")")
                  else
                    match functions name with
                    | none => .error (.err ("Unknown function: " ++ name))
                    | some fn => do
                        let (args, p) ← parseArgs toks vars f (pos + 2)
                        if peekIsOp toks p ")" then .ok (fn args, p + 1)
                        else .error (.err "Missing closing parenthesis in function call")
                else
                  match allowedConstants name with
                  | some q => .ok (JsVal.num q, pos + 1)
                  | none =>
                      match List.lookup name vars with
                      | some v => .ok (v, pos + 1)
                      | none => .error (.err ("Unknown variable: " ++ name))
            | _ => .error (.err ("Unexpected token: " ++ t.valueStr))
termination_by structural f _ => f

/-- The argument-list parsing of the curve visualizer's `parsePrimary`. -/
def parseArgs (toks : List Token) (vars : Vars) :
    Nat → Nat → Except JsErr (List JsVal × Nat)
  | 0, _ => .error .fuel
  | f + 1, pos =>
      if (toks[pos]?).isSome && !peekIsOp toks pos ")" then do
        let (a, p) ← parseExpr toks vars f pos
        let (more, p2) ← parseArgsLoop toks vars f p
        .ok (a :: more, p2)
      else .ok ([], pos)
termination_by structural f _ => f

/-- The comma loop of the curve visualizer's argument-list parsing. -/
def parseArgsLoop (toks : List Token) (vars : Vars) :
    Nat → Nat → Except JsErr (List JsVal × Nat)
  | 0, _ => .error .fuel
  | f + 1, pos =>
      if peekIsOp toks pos "," then do
        let (a, p) ← parseExpr toks vars f (pos + 1)
        let (more, p2) ← parseArgsLoop toks vars f p
        .ok (a :: more, p2)
      else .ok ([], pos)
termination_by structural f _ => f

end

/-- `safeEval` of the curve visualizer: tokenize, parse/evaluate, reject
leftover tokens — and return the raw result.  NOTE: unlike the shared-utilities
facade, this `safeEval` performs NO finiteness check on the final result (its
caller checks `isFinite` separately with a different message). -/
def safeEval (expr : String) (vars : Vars) : Except JsErr JsVal := do
  let toks ← tokenize expr
  let (v, p) ← parseExpr toks vars (8 * toks.length + 8) 0
  if h : p < toks.length then
    .error (.err ("Unexpected token: " ++ (toks.get ⟨p, h⟩).valueStr))
  else .ok v

end CurveVis

namespace OfflineSim

/-- Does the accumulated text end in `e` or `E`?  (The scanner of the offline
simulator allows a sign character only directly after an exponent marker.) -/
def lastIsExp (s : String) : Bool :=
  match s.data.reverse with
  | c :: _ => c == 'e' || c == 'E'
  | [] => false

/-- The number scanner of the offline-progress simulator: greedily accumulates
characters from `[0-9.eE+-]`, breaking on a sign character that does not
directly follow an exponent marker. -/
def scanNum : List Char → String → String × List Char
  | [], acc => (acc, [])
  | c :: rest, acc =>
    if c.isDigit || c == '.' || c == 'e' || c == 'E' || c == '+' || c == '-' then
      if (c == '+' || c == '-') && acc.length > 0 && !lastIsExp acc then (acc, c :: rest)
      else scanNum rest (acc.push c)
    else (acc, c :: rest)

theorem scanNum_rest_le_os (cs : List Char) (acc : String) :
    (scanNum cs acc).2.length ≤ cs.length := by
  induction cs, acc using scanNum.induct with
  | case1 acc => simp [scanNum]
  | case2 c rest acc hcls hbrk =>
      rw [scanNum.eq_def]
      simp only [hcls, hbrk, if_true]
      simp
  | case3 c rest acc hcls hbrk ih =>
      rw [scanNum.eq_def]
      simp only [hcls, hbrk, if_true, if_false, Bool.false_eq_true]
      simp only [List.length_cons]
      omega
  | case4 c rest acc hcls =>
      rw [scanNum.eq_def]
      simp only [hcls, if_false, Bool.false_eq_true]
      simp

theorem scanNum_head_le_os (c : Char) (rest : List Char)
    (h : isNumStart c = true) :
    (scanNum (c :: rest) "").2.length ≤ rest.length := by
  have hcls : (c.isDigit || c == '.' || c == 'e' || c == 'E' || c == '+' || c == '-') = true := by
    rcases Bool.or_eq_true_iff.mp h with hd | hdot
    · simp [hd]
    · simp [hdot]
  have hstep : scanNum (c :: rest) "" = scanNum rest ("".push c) := by
    rw [scanNum.eq_def]
    simp [hcls]
  rw [hstep]
  exact scanNum_rest_le_os rest _

/-- The offline-progress-simulator tokenizer loop: the captured number text is
pushed through `parseFloat` with no validity check (a `NaN`-valued token can be
emitted); identifiers strip a leading `Math.` prefix; `^` has a dedicated
failure message mentioning `Math.pow`.  Each step consumes at least one
character, so the fuel `cs.length + 1` supplied by `tokenize` is sufficient. -/
def tokenizeGo : Nat → List Char → Except JsErr (List Token)
  | 0, _ => .error .fuel
  | _ + 1, [] => .ok []
  | f + 1, c :: rest =>
    if c.isWhitespace then tokenizeGo f rest
    else if isNumStart c then
      do
        let toks ← tokenizeGo f (scanNum (c :: rest) "").2
        .ok (Token.num (floatOrNaN (scanNum (c :: rest) "").1) :: toks)
    else if isIdentStart c then
      if (scanIdent (c :: rest)).1 == "Math" &&
         (scanIdent (c :: rest)).2.head? == some '.' then
        do
          let toks ← tokenizeGo f (scanIdent (scanIdent (c :: rest)).2.tail).2
          .ok (Token.ident (scanIdent (scanIdent (c :: rest)).2.tail).1 :: toks)
      else do
        let toks ← tokenizeGo f (scanIdent (c :: rest)).2
        .ok (Token.ident (scanIdent (c :: rest)).1 :: toks)
    else if c == '*' && rest.head? == some '*' then do
      let toks ← tokenizeGo f rest.tail
      .ok (Token.op "**" :: toks)
    else if c == '+' || c == '-' || c == '*' || c == '/' || c == '%' ||
            c == '(' || c == ')' || c == ',' || c == '.' then do
      let toks ← tokenizeGo f rest
      .ok (Token.op (String.singleton c) :: toks)
    else if c == '^' then .error (.err "Use Math.pow(a, b) or a ** b for exponents, not ^")
    else .error (.err ("Unexpected character: " ++ String.singleton c))

/-- `SafeMathParser.tokenize` of the offline-progress simulator. -/
def tokenize (s : String) : Except JsErr (List Token) :=
  tokenizeGo (s.data.length + 1) s.data

/-- The function whitelist of the offline-progress simulator.  Unlike the
shared-utilities copy it does NOT contain `lerp`. -/
def allowedFunctions : List String :=
  ["abs", "ceil", "floor", "round", "trunc",
   "sqrt", "cbrt", "pow", "exp", "expm1",
   "log", "log2", "log10", "log1p",
   "sin", "cos", "tan", "asin", "acos", "atan", "atan2",
   "sinh", "cosh", "tanh", "asinh", "acosh", "atanh",
   "min", "max", "hypot", "sign", "clamp"]

/-- Function-call validation and execution of the offline simulator's
`parsePrimary`: whitelist check, a `clamp` special case with exact-arity
error, then `Math[name](...args)`.  There is no `lerp` special case and
`lerp` is not whitelisted. -/
def callFn (name : String) (args : List JsVal) : Except JsErr JsVal :=
  if allowedFunctions.contains name then
    if name = "clamp" then
      match args with
      | [a, b, c] => .ok (JsVal.min2 (JsVal.max2 a b) c)
      | _ => .error (.err "clamp requires 3 arguments: clamp(value, min, max)")
    else .ok (mathApply name args)
  else .error (.err ("Unknown or disallowed function: " ++ name))

/-- Bare-identifier resolution of the offline simulator's `parsePrimary`:
variables are checked BEFORE constants. -/
def resolveName (vars : Vars) (name : String) (pos : Nat) :
    Except JsErr (JsVal × Nat) :=
  match List.lookup name vars with
  | some v => .ok (v, pos + 1)
  | none =>
      match allowedConstants name with
      | some q => .ok (JsVal.num q, pos + 1)
      | none => .error (.err ("Unknown variable or constant: " ++ name))

mutual

/-- `parseExpression` of the offline simulator. -/
def parseExpr (toks : List Token) (vars : Vars) :
    Nat → Nat → Except JsErr (JsVal × Nat)
  | 0, _ => .error .fuel
  | f + 1, pos => parseAddSub toks vars f pos
termination_by structural f _ => f

/-- `parseAddSub`. -/
def parseAddSub (toks : List Token) (vars : Vars) :
    Nat → Nat → Except JsErr (JsVal × Nat)
  | 0, _ => .error .fuel
  | f + 1, pos => do
      let (l, p) ← parseMulDiv toks vars f pos
      parseAddSubLoop toks vars f l p
termination_by structural f _ => f

/-- The folding `while` loop of `parseAddSub`. -/
def parseAddSubLoop (toks : List Token) (vars : Vars) :
    Nat → JsVal → Nat → Except JsErr (JsVal × Nat)
  | 0, _, _ => .error .fuel
  | f + 1, left, pos =>
      if peekIsOp toks pos "+" || peekIsOp toks pos "-" then do
        let (r, p) ← parseMulDiv toks vars f (pos + 1)
        parseAddSubLoop toks vars f
          (if peekIsOp toks pos "+" then JsVal.add left r else JsVal.sub left r) p
      else .ok (left, pos)
termination_by structural f _ _ => f

/-- `parseMulDiv`. -/
def parseMulDiv (toks : List Token) (vars : Vars) :
    Nat → Nat → Except JsErr (JsVal × Nat)
  | 0, _ => .error .fuel
  | f + 1, pos => do
      let (l, p) ← parsePower toks vars f pos
      parseMulDivLoop toks vars f l p
termination_by structural f _ => f

/-- The folding `while` loop of `parseMulDiv`. -/
def parseMulDivLoop (toks : List Token) (vars : Vars) :
    Nat → JsVal → Nat → Except JsErr (JsVal × Nat)
  | 0, _, _ => .error .fuel
  | f + 1, left, pos =>
      if peekIsOp toks pos "*" || peekIsOp toks pos "/" || peekIsOp toks pos "%" then do
        let (r, p) ← parsePower toks vars f (pos + 1)
        parseMulDivLoop toks vars f
          (if peekIsOp toks pos "*" then JsVal.mul left r
           else if peekIsOp toks pos "/" then JsVal.div left r
           else JsVal.mod left r) p
      else .ok (left, pos)
termination_by structural f _ _ => f

/-- `parsePower` of the offline simulator (right-associative `**`). -/
def parsePower (toks : List Token) (vars : Vars) :
    Nat → Nat → Except JsErr (JsVal × Nat)
  | 0, _ => .error .fuel
  | f + 1, pos => do
      let (l, p) ← parseUnary toks vars f pos
      if peekIsOp toks p "**" then do
        let (r, p2) ← parsePower toks vars f (p + 1)
        .ok (JsVal.pow l r, p2)
      else .ok (l, p)
termination_by structural f _ => f

/-- `parseUnary` of the offline simulator. -/
def parseUnary (toks : List Token) (vars : Vars) :
    Nat → Nat → Except JsErr (JsVal × Nat)
  | 0, _ => .error .fuel
  | f + 1, pos =>
      if peekIsOp toks pos "+" || peekIsOp toks pos "-" then do
        let (v, p) ← parseUnary toks vars f (pos + 1)
        .ok ((if peekIsOp toks pos "-" then JsVal.neg v else v), p)
      else parsePrimary toks vars f pos
termination_by structural f _ => f

/-- `parsePrimary` of the offline simulator (same structure as the
shared-utilities copy; dispatches through this module's `callFn`). -/
def parsePrimary (toks : List Token) (vars : Vars) :
    Nat → Nat → Except JsErr (JsVal × Nat)
  | 0, _ => .error .fuel
  | f + 1, pos =>
      match toks[pos]? with
      | none => .error (.err "Unexpected end of expression")
      | some (.num v) => .ok (v, pos + 1)
      | some t =>
          if t.isOp "(" then do
            let (v, p) ← parseExpr toks vars f (pos + 1)
            if peekIsOp toks p ")" then .ok (v, p + 1)
            else .error (.err "Missing closing parenthesis")
          else
            match t with
            | .ident name =>
                if peekIsOp toks (pos + 1) "(" then do
                  let (args, p) ← parseArgs toks vars f (pos + 2)
                  if peekIsOp toks p ")" then do
                    let v ← callFn name args
                    .ok (v, p + 1)
                  else .error (.err "Missing closing parenthesis for function call")
                else resolveName vars name pos
            | _ => .error (.err ("Unexpected token: " ++ t.valueStr))
termination_by structural f _ => f

/-- The argument-list parsing of the offline simulator's `parsePrimary`. -/
def parseArgs (toks : List Token) (vars : Vars) :
    Nat → Nat → Except JsErr (List JsVal × Nat)
  | 0, _ => .error .fuel
  | f + 1, pos =>
      if (toks[pos]?).isSome && !peekIsOp toks pos ")" then do
        let (a, p) ← parseExpr toks vars f pos
        let (more, p2) ← parseArgsLoop toks vars f p
        .ok (a :: more, p2)
      else .ok ([], pos)
termination_by structural f _ => f

/-- The comma loop of the offline simulator's argument-list parsing. -/
def parseArgsLoop (toks : List Token) (vars : Vars) :
    Nat → Nat → Except JsErr (List JsVal × Nat)
  | 0, _ => .error .fuel
  | f + 1, pos =>
      if peekIsOp toks pos "," then do
        let (a, p) ← parseExpr toks vars f (pos + 1)
        let (more, p2) ← parseArgsLoop toks vars f p
        .ok (a :: more, p2)
      else .ok ([], pos)
termination_by structural f _ => f

end

/-- `SafeMathParser.evaluate` of the offline-progress simulator. -/
def evaluate (expr : String) (vars : Vars) : Except JsErr JsVal := do
  let toks ← tokenize expr
  let (v, p) ← parseExpr toks vars (8 * toks.length + 8) 0
  if h : p < toks.length then
    .error (.err ("Unexpected token: " ++ (toks.get ⟨p, h⟩).valueStr))
  else .ok v

/-- The `evaluateFormula` facade of the offline simulator: a non-finite result
throws `Formula must return a valid number`, the result is clamped to be
non-negative with `Math.max(0, result)`, and every thrown message is
re-wrapped with the `Formula error: ` prefix by the surrounding
`try`/`catch`.  (The fuel marker is not a JS exception and passes through.) -/
def evaluateFormula (formula : String) (vars : Vars) : Except JsErr JsVal :=
  match evaluate formula vars with
  | .error (.err m) => .error (.err ("Formula error: " ++ m))
  | .error .fuel => .error .fuel
  | .ok r =>
      if r.isNaN || !r.isFiniteNum then
        .error (.err "Formula error: Formula must return a valid number")
      else .ok (JsVal.max2 (JsVal.num 0) r)

end OfflineSim

/-! ### Supporting lemmas -/

theorem peekIsOp_lt {toks : List Token} {pos : Nat} {s : String}
    (h : peekIsOp toks pos s = true) : pos < toks.length := by
  by_contra hge
  rw [peekIsOp, List.getElem?_eq_none (by omega)] at h
  simp at h

theorem isSome_lt {toks : List Token} {pos : Nat}
    (h : (toks[pos]?).isSome = true) : pos < toks.length := by
  by_contra hge
  rw [List.getElem?_eq_none (by omega)] at h
  simp at h

theorem getElem?_some_lt {toks : List Token} {pos : Nat} {t : Token}
    (h : toks[pos]? = some t) : pos < toks.length := by
  by_contra hge
  rw [List.getElem?_eq_none (by omega)] at h
  simp at h

namespace SharedUtils

theorem resolveName_pos {vars : Vars} {name : String} {pos : Nat} {v : JsVal}
    {p : Nat} (h : resolveName vars name pos = .ok (v, p)) : p = pos + 1 := by
  rw [resolveName] at h
  cases hl : List.lookup name vars with
  | some w =>
      rw [hl] at h
      simp at h
      omega
  | none =>
      rw [hl] at h
      cases hc : allowedConstants name with
      | some q =>
          rw [hc] at h
          simp at h
          omega
      | none =>
          rw [hc] at h
          simp at h

/-- Progress of the recursive-descent parser: on success the cursor moves
strictly forward for every grammar rule (and never past the end of the token
sequence); the folding loops and the argument list move it forward weakly.
This is the "never backtracks past a consumed token" discipline of the
source. -/
theorem parse_progress (toks : List Token) (vars : Vars) : ∀ f : Nat,
    (∀ pos v p, parseExpr toks vars f pos = .ok (v, p) →
        pos < p ∧ p ≤ toks.length) ∧
    (∀ pos v p, parseAddSub toks vars f pos = .ok (v, p) →
        pos < p ∧ p ≤ toks.length) ∧
    (∀ left pos v p, parseAddSubLoop toks vars f left pos = .ok (v, p) →
        pos ≤ p ∧ (pos ≤ toks.length → p ≤ toks.length)) ∧
    (∀ pos v p, parseMulDiv toks vars f pos = .ok (v, p) →
        pos < p ∧ p ≤ toks.length) ∧
    (∀ left pos v p, parseMulDivLoop toks vars f left pos = .ok (v, p) →
        pos ≤ p ∧ (pos ≤ toks.length → p ≤ toks.length)) ∧
    (∀ pos v p, parsePower toks vars f pos = .ok (v, p) →
        pos < p ∧ p ≤ toks.length) ∧
    (∀ pos v p, parseUnary toks vars f pos = .ok (v, p) →
        pos < p ∧ p ≤ toks.length) ∧
    (∀ pos v p, parsePrimary toks vars f pos = .ok (v, p) →
        pos < p ∧ p ≤ toks.length) ∧
    (∀ pos args p, parseArgs toks vars f pos = .ok (args, p) →
        pos ≤ p ∧ (pos ≤ toks.length → p ≤ toks.length)) ∧
    (∀ pos args p, parseArgsLoop toks vars f pos = .ok (args, p) →
        pos ≤ p ∧ (pos ≤ toks.length → p ≤ toks.length)) := by
  intro f
  induction f with
  | zero =>
      refine ⟨?_, ?_, ?_, ?_, ?_, ?_, ?_, ?_, ?_, ?_⟩ <;> intros <;>
        simp_all [parseExpr, parseAddSub, parseAddSubLoop, parseMulDiv,
          parseMulDivLoop, parsePower, parseUnary, parsePrimary,
          parseArgs, parseArgsLoop]
  | succ f ih =>
      obtain ⟨ihE, ihA, ihAL, ihM, ihML, ihP, ihU, ihPr, ihAr, ihArL⟩ := ih
      have hE : ∀ pos v p, parseExpr toks vars (f + 1) pos = .ok (v, p) →
          pos < p ∧ p ≤ toks.length := by
        intro pos v p h
        rw [parseExpr] at h
        exact ihA pos v p h
      have hA : ∀ pos v p, parseAddSub toks vars (f + 1) pos = .ok (v, p) →
          pos < p ∧ p ≤ toks.length := by
        intro pos v p h
        rw [parseAddSub] at h
        cases hm : parseMulDiv toks vars f pos with
        | error e => rw [hm] at h; simp [bind, Except.bind] at h
        | ok lp =>
            obtain ⟨l, p1⟩ := lp
            rw [hm] at h
            simp only [bind, Except.bind] at h
            have h1 := ihM pos l p1 hm
            have h2 := ihAL l p1 v p h
            exact ⟨by omega, h2.2 h1.2⟩
      have hAL : ∀ left pos v p,
          parseAddSubLoop toks vars (f + 1) left pos = .ok (v, p) →
          pos ≤ p ∧ (pos ≤ toks.length → p ≤ toks.length) := by
        intro left pos v p h
        rw [parseAddSubLoop] at h
        split at h
        · cases hm : parseMulDiv toks vars f (pos + 1) with
          | error e => rw [hm] at h; simp [bind, Except.bind] at h
          | ok lp =>
              obtain ⟨r, p1⟩ := lp
              rw [hm] at h
              simp only [bind, Except.bind] at h
              have h1 := ihM (pos + 1) r p1 hm
              have h2 := ihAL _ p1 v p h
              exact ⟨by omega, fun _ => h2.2 h1.2⟩
        · simp at h
          obtain ⟨_, h2⟩ := h
          omega
      have hM : ∀ pos v p, parseMulDiv toks vars (f + 1) pos = .ok (v, p) →
          pos < p ∧ p ≤ toks.length := by
        intro pos v p h
        rw [parseMulDiv] at h
        cases hm : parsePower toks vars f pos with
        | error e => rw [hm] at h; simp [bind, Except.bind] at h
        | ok lp =>
            obtain ⟨l, p1⟩ := lp
            rw [hm] at h
            simp only [bind, Except.bind] at h
            have h1 := ihP pos l p1 hm
            have h2 := ihML l p1 v p h
            exact ⟨by omega, h2.2 h1.2⟩
      have hML : ∀ left pos v p,
          parseMulDivLoop toks vars (f + 1) left pos = .ok (v, p) →
          pos ≤ p ∧ (pos ≤ toks.length → p ≤ toks.length) := by
        intro left pos v p h
        rw [parseMulDivLoop] at h
        split at h
        · cases hm : parsePower toks vars f (pos + 1) with
          | error e => rw [hm] at h; simp [bind, Except.bind] at h
          | ok lp =>
              obtain ⟨r, p1⟩ := lp
              rw [hm] at h
              simp only [bind, Except.bind] at h
              have h1 := ihP (pos + 1) r p1 hm
              have h2 := ihML _ p1 v p h
              exact ⟨by omega, fun _ => h2.2 h1.2⟩
        · simp at h
          obtain ⟨_, h2⟩ := h
          omega
      have hP : ∀ pos v p, parsePower toks vars (f + 1) pos = .ok (v, p) →
          pos < p ∧ p ≤ toks.length := by
        intro pos v p h
        rw [parsePower] at h
        cases hu : parseUnary toks vars f pos with
        | error e => rw [hu] at h; simp [bind, Except.bind] at h
        | ok lp =>
            obtain ⟨l, p1⟩ := lp
            rw [hu] at h
            simp only [bind, Except.bind] at h
            have h1 := ihU pos l p1 hu
            split at h
            · cases hr : parsePower toks vars f (p1 + 1) with
              | error e => rw [hr] at h; simp [bind, Except.bind] at h
              | ok rp =>
                  obtain ⟨r, p2⟩ := rp
                  rw [hr] at h
                  simp only [bind, Except.bind] at h
                  simp at h
                  have h2 := ihP (p1 + 1) r p2 hr
                  obtain ⟨_, hp⟩ := h
                  subst hp
                  exact ⟨by omega, h2.2⟩
            · simp at h
              obtain ⟨_, hp⟩ := h
              omega
      have hU : ∀ pos v p, parseUnary toks vars (f + 1) pos = .ok (v, p) →
          pos < p ∧ p ≤ toks.length := by
        intro pos v p h
        rw [parseUnary] at h
        split at h
        · cases hu : parseUnary toks vars f (pos + 1) with
          | error e => rw [hu] at h; simp [bind, Except.bind] at h
          | ok lp =>
              obtain ⟨w, p1⟩ := lp
              rw [hu] at h
              simp only [bind, Except.bind] at h
              simp at h
              have h1 := ihU (pos + 1) w p1 hu
              obtain ⟨_, hp⟩ := h
              subst hp
              exact ⟨by omega, h1.2⟩
        · exact ihPr pos v p h
      have hPr : ∀ pos v p, parsePrimary toks vars (f + 1) pos = .ok (v, p) →
          pos < p ∧ p ≤ toks.length := by
        intro pos v p h
        rw [parsePrimary] at h
        cases ht : toks[pos]? with
        | none => rw [ht] at h; simp at h
        | some t =>
            rw [ht] at h
            have hlt := getElem?_some_lt ht
            cases t with
            | num w =>
                simp at h
                obtain ⟨_, hp⟩ := h
                omega
            | ident name =>
                simp only at h
                split at h
                · -- impossible: an identifier token is not the operator "("
                  simp [Token.isOp] at *
                · split at h
                  · -- function call
                    cases ha : parseArgs toks vars f (pos + 2) with
                    | error e => rw [ha] at h; simp [bind, Except.bind] at h
                    | ok ap =>
                        obtain ⟨args, p1⟩ := ap
                        rw [ha] at h
                        simp only [bind, Except.bind] at h
                        split at h
                        · rename_i hpk
                          have hclose : p1 < toks.length := peekIsOp_lt hpk
                          have hargs := ihAr (pos + 2) args p1 ha
                          cases hc : callFn name args with
                          | error e => rw [hc] at h; simp [bind, Except.bind] at h
                          | ok w =>
                              rw [hc] at h
                              simp [bind, Except.bind] at h
                              obtain ⟨_, hp⟩ := h
                              omega
                        · simp at h
                  · -- bare identifier
                    have := resolveName_pos h
                    omega
            | op s =>
                simp only at h
                split at h
                · -- parenthesized expression
                  cases he : parseExpr toks vars f (pos + 1) with
                  | error e => rw [he] at h; simp [bind, Except.bind] at h
                  | ok wp =>
                      obtain ⟨w, p1⟩ := wp
                      rw [he] at h
                      simp only [bind, Except.bind] at h
                      split at h
                      · rename_i hpk
                        have hclose : p1 < toks.length := peekIsOp_lt hpk
                        have hsub := ihE (pos + 1) w p1 he
                        simp at h
                        obtain ⟨_, hp⟩ := h
                        omega
                      · simp at h
                · simp at h
      have hAr : ∀ pos args p, parseArgs toks vars (f + 1) pos = .ok (args, p) →
          pos ≤ p ∧ (pos ≤ toks.length → p ≤ toks.length) := by
        intro pos args p h
        rw [parseArgs] at h
        split at h
        · cases he : parseExpr toks vars f pos with
          | error e => rw [he] at h; simp [bind, Except.bind] at h
          | ok ap =>
              obtain ⟨a, p1⟩ := ap
              rw [he] at h
              simp only [bind, Except.bind] at h
              cases hl : parseArgsLoop toks vars f p1 with
              | error e => rw [hl] at h; simp [bind, Except.bind] at h
              | ok mp =>
                  obtain ⟨more, p2⟩ := mp
                  rw [hl] at h
                  simp [bind, Except.bind] at h
                  have h1 := ihE pos a p1 he
                  have h2 := ihArL p1 more p2 hl
                  obtain ⟨_, hp⟩ := h
                  subst hp
                  exact ⟨by omega, fun _ => h2.2 h1.2⟩
        · simp at h
          obtain ⟨_, hp⟩ := h
          omega
      have hArL : ∀ pos args p,
          parseArgsLoop toks vars (f + 1) pos = .ok (args, p) →
          pos ≤ p ∧ (pos ≤ toks.length → p ≤ toks.length) := by
        intro pos args p h
        rw [parseArgsLoop] at h
        split at h
        · cases he : parseExpr toks vars f (pos + 1) with
          | error e => rw [he] at h; simp [bind, Except.bind] at h
          | ok ap =>
              obtain ⟨a, p1⟩ := ap
              rw [he] at h
              simp only [bind, Except.bind] at h
              cases hl : parseArgsLoop toks vars f p1 with
              | error e => rw [hl] at h; simp [bind, Except.bind] at h
              | ok mp =>
                  obtain ⟨more, p2⟩ := mp
                  rw [hl] at h
                  simp [bind, Except.bind] at h
                  have h1 := ihE (pos + 1) a p1 he
                  have h2 := ihArL p1 more p2 hl
                  obtain ⟨_, hp⟩ := h
                  subst hp
                  exact ⟨by omega, fun _ => h2.2 h1.2⟩
        · simp at h
          obtain ⟨_, hp⟩ := h
          omega
      exact ⟨hE, hA, hAL, hM, hML, hP, hU, hPr, hAr, hArL⟩

/-- Each tokenizer step consumes at least one character, so the fuel
`length + 1` used by `tokenize` never runs out. -/
theorem tokenizeGo_fuel : ∀ (f : Nat) (cs : List Char), cs.length < f →
    tokenizeGo f cs ≠ .error .fuel := by
  intro f cs
  induction f, cs using tokenizeGo.induct
  case case1 => intro hlen h; omega
  case case2 => intro hlen h; simp [tokenizeGo] at h
  case case3 f c rest hws ih =>
      intro hlen h
      rw [tokenizeGo] at h
      simp only [List.length_cons] at hlen
      have hih := ih (by omega)
      cases hr : tokenizeGo f rest with
      | error e =>
          simp [hws, hr, bind, Except.bind] at h
          exact hih (by rw [hr, h])
      | ok toks => simp [hws, hr, bind, Except.bind] at h
  case case4 f c rest hws hnum hq =>
      intro hlen h
      rw [tokenizeGo] at h
      simp [hws, hnum, hq] at h
  case case5 f c rest hws hnum q hq hmal =>
      intro hlen h
      rw [tokenizeGo] at h
      simp [hws, hnum, hq, hmal] at h
  case case6 f c rest hws hnum q hq hmal ih =>
      intro hlen h
      rw [tokenizeGo] at h
      have hb := scanNum_head_le c rest hnum
      simp only [List.length_cons] at hlen
      have hih := ih (by omega)
      cases hr : tokenizeGo f (scanNum (c :: rest) "" false false false).2 with
      | error e =>
          simp [hws, hnum, hq, hmal, hr, bind, Except.bind] at h
          exact hih (by rw [hr, h])
      | ok toks => simp [hws, hnum, hq, hmal, hr, bind, Except.bind] at h
  case case7 f c rest hws hnum hid hmath ih =>
      intro hlen h
      rw [tokenizeGo] at h
      have hident : isIdentChar c = true := by
        simp only [isIdentChar, isIdentStart, Bool.or_eq_true_iff] at hid ⊢
        tauto
      have hb1 := scanIdent_rest_lt c rest hident
      have hb2 := scanIdent_rest_le (scanIdent (c :: rest)).2.tail
      have hb3 : (scanIdent (c :: rest)).2.tail.length + 1 =
          (scanIdent (c :: rest)).2.length ∨ (scanIdent (c :: rest)).2 = [] := by
        cases (scanIdent (c :: rest)).2 with
        | nil => exact Or.inr rfl
        | cons x xs => exact Or.inl (by simp)
      rcases hb3 with hb3 | hb3
      · simp only [List.length_cons] at hlen
        have hih := ih (by omega)
        cases hr : tokenizeGo f (scanIdent (scanIdent (c :: rest)).2.tail).2 with
        | error e =>
            simp [hws, hnum, hid, hmath, hr, bind, Except.bind] at h
            exact hih (by rw [hr, h])
        | ok toks => simp [hws, hnum, hid, hmath, hr, bind, Except.bind] at h
      · rw [hb3] at hmath
        simp at hmath
  case case8 f c rest hws hnum hid hmath ih =>
      intro hlen h
      rw [tokenizeGo] at h
      have hident : isIdentChar c = true := by
        simp only [isIdentChar, isIdentStart, Bool.or_eq_true_iff] at hid ⊢
        tauto
      have hb := scanIdent_rest_lt c rest hident
      simp only [List.length_cons] at hlen
      have hih := ih (by omega)
      cases hr : tokenizeGo f (scanIdent (c :: rest)).2 with
      | error e =>
          simp [hws, hnum, hid, hmath, hr, bind, Except.bind] at h
          exact hih (by rw [hr, h])
      | ok toks => simp [hws, hnum, hid, hmath, hr, bind, Except.bind] at h
  case case9 f c rest hws hnum hid hstar ih =>
      intro hlen h
      rw [tokenizeGo] at h
      have hb : rest.tail.length ≤ rest.length := by cases rest <;> simp
      simp only [List.length_cons] at hlen
      have hih := ih (by omega)
      cases hr : tokenizeGo f rest.tail with
      | error e =>
          simp [hws, hnum, hid, hstar, hr, bind, Except.bind] at h
          exact hih (by rw [hr, h])
      | ok toks => simp [hws, hnum, hid, hstar, hr, bind, Except.bind] at h
  case case10 f c rest hws hnum hid hstar hops ih =>
      intro hlen h
      rw [tokenizeGo] at h
      simp only [List.length_cons] at hlen
      have hih := ih (by omega)
      cases hr : tokenizeGo f rest with
      | error e =>
          simp [hws, hnum, hid, hstar, hops, hr, bind, Except.bind] at h
          exact hih (by rw [hr, h])
      | ok toks => simp [hws, hnum, hid, hstar, hops, hr, bind, Except.bind] at h
  case case11 f c rest hws hnum hid hstar hops hcaret =>
      intro hlen h
      rw [tokenizeGo] at h
      simp [hws, hnum, hid, hstar, hops, hcaret] at h
  case case12 f c rest hws hnum hid hstar hops hcaret =>
      intro hlen h
      rw [tokenizeGo] at h
      simp [hws, hnum, hid, hstar, hops, hcaret] at h

/-- Every emitted token consumes at least one character of the source, so a
successful tokenization yields at most as many tokens as characters. -/
theorem tokenizeGo_count : ∀ (f : Nat) (cs : List Char) (toks : List Token),
    tokenizeGo f cs = .ok toks → toks.length ≤ cs.length := by
  intro f cs
  induction f, cs using tokenizeGo.induct
  case case1 => intro toks h; simp [tokenizeGo] at h
  case case2 => intro toks h; simp [tokenizeGo] at h; simp [h.symm]
  case case3 f c rest hws ih =>
      intro toks h
      rw [tokenizeGo] at h
      cases hr : tokenizeGo f rest with
      | error e => simp [hws, hr, bind, Except.bind] at h
      | ok toks2 =>
          simp [hws, hr, bind, Except.bind] at h
          have := ih toks2 hr
          simp [h.symm]
          omega
  case case4 f c rest hws hnum hq =>
      intro toks h
      rw [tokenizeGo] at h
      simp [hws, hnum, hq] at h
  case case5 f c rest hws hnum q hq hmal =>
      intro toks h
      rw [tokenizeGo] at h
      simp [hws, hnum, hq, hmal] at h
  case case6 f c rest hws hnum q hq hmal ih =>
      intro toks h
      rw [tokenizeGo] at h
      have hb := scanNum_head_le c rest hnum
      cases hr : tokenizeGo f (scanNum (c :: rest) "" false false false).2 with
      | error e => simp [hws, hnum, hq, hmal, hr, bind, Except.bind] at h
      | ok toks2 =>
          simp [hws, hnum, hq, hmal, hr, bind, Except.bind] at h
          have := ih toks2 hr
          simp [h.symm]
          omega
  case case7 f c rest hws hnum hid hmath ih =>
      intro toks h
      rw [tokenizeGo] at h
      have hident : isIdentChar c = true := by
        simp only [isIdentChar, isIdentStart, Bool.or_eq_true_iff] at hid ⊢
        tauto
      have hb1 := scanIdent_rest_lt c rest hident
      have hb2 := scanIdent_rest_le (scanIdent (c :: rest)).2.tail
      have hb3 : (scanIdent (c :: rest)).2.tail.length + 1 =
          (scanIdent (c :: rest)).2.length ∨ (scanIdent (c :: rest)).2 = [] := by
        cases (scanIdent (c :: rest)).2 with
        | nil => exact Or.inr rfl
        | cons x xs => exact Or.inl (by simp)
      rcases hb3 with hb3 | hb3
      · cases hr : tokenizeGo f (scanIdent (scanIdent (c :: rest)).2.tail).2 with
        | error e => simp [hws, hnum, hid, hmath, hr, bind, Except.bind] at h
        | ok toks2 =>
            simp [hws, hnum, hid, hmath, hr, bind, Except.bind] at h
            have := ih toks2 hr
            simp [h.symm]
            omega
      · rw [hb3] at hmath
        simp at hmath
  case case8 f c rest hws hnum hid hmath ih =>
      intro toks h
      rw [tokenizeGo] at h
      have hident : isIdentChar c = true := by
        simp only [isIdentChar, isIdentStart, Bool.or_eq_true_iff] at hid ⊢
        tauto
      have hb := scanIdent_rest_lt c rest hident
      cases hr : tokenizeGo f (scanIdent (c :: rest)).2 with
      | error e => simp [hws, hnum, hid, hmath, hr, bind, Except.bind] at h
      | ok toks2 =>
          simp [hws, hnum, hid, hmath, hr, bind, Except.bind] at h
          have := ih toks2 hr
          simp [h.symm]
          omega
  case case9 f c rest hws hnum hid hstar ih =>
      intro toks h
      rw [tokenizeGo] at h
      have hb : rest.tail.length ≤ rest.length := by cases rest <;> simp
      cases hr : tokenizeGo f rest.tail with
      | error e => simp [hws, hnum, hid, hstar, hr, bind, Except.bind] at h
      | ok toks2 =>
          simp [hws, hnum, hid, hstar, hr, bind, Except.bind] at h
          have := ih toks2 hr
          simp [h.symm]
          omega
  case case10 f c rest hws hnum hid hstar hops ih =>
      intro toks h
      rw [tokenizeGo] at h
      cases hr : tokenizeGo f rest with
      | error e => simp [hws, hnum, hid, hstar, hops, hr, bind, Except.bind] at h
      | ok toks2 =>
          simp [hws, hnum, hid, hstar, hops, hr, bind, Except.bind] at h
          have := ih toks2 hr
          simp [h.symm]
          omega
  case case11 f c rest hws hnum hid hstar hops hcaret =>
      intro toks h
      rw [tokenizeGo] at h
      simp [hws, hnum, hid, hstar, hops, hcaret] at h
  case case12 f c rest hws hnum hid hstar hops hcaret =>
      intro toks h
      rw [tokenizeGo] at h
      simp [hws, hnum, hid, hstar, hops, hcaret] at h

theorem callFn_ne_fuel (name : String) (args : List JsVal) :
    callFn name args ≠ .error .fuel := by
  intro h
  unfold callFn at h
  split_ifs at h <;>
    (try rcases args with _ | ⟨a, _ | ⟨b, _ | ⟨c, _ | ⟨d, rest⟩⟩⟩⟩) <;> simp_all

theorem resolveName_ne_fuel (vars : Vars) (name : String) (pos : Nat) :
    resolveName vars name pos ≠ .error .fuel := by
  rw [resolveName]
  cases List.lookup name vars <;> (try cases allowedConstants name) <;> simp

/-- Fuel sufficiency for the recursive-descent parser: since every grammar
rule consumes at least one token before re-entering a deeper cycle, a fuel
budget linear in the number of remaining tokens (`8 * remaining + rank`)
never runs out.  In particular the fuel `8 * toks.length + 8` used by
`evaluate` is sufficient, so the recursion depth of the parser is bounded
linearly by the length of the token sequence. -/
theorem parse_fuel (toks : List Token) (vars : Vars) : ∀ f : Nat,
    (∀ pos, pos ≤ toks.length → 8 * (toks.length - pos) + 6 ≤ f →
        parseExpr toks vars f pos ≠ .error .fuel) ∧
    (∀ pos, pos ≤ toks.length → 8 * (toks.length - pos) + 5 ≤ f →
        parseAddSub toks vars f pos ≠ .error .fuel) ∧
    (∀ left pos, pos ≤ toks.length → 8 * (toks.length - pos) + 5 ≤ f →
        parseAddSubLoop toks vars f left pos ≠ .error .fuel) ∧
    (∀ pos, pos ≤ toks.length → 8 * (toks.length - pos) + 4 ≤ f →
        parseMulDiv toks vars f pos ≠ .error .fuel) ∧
    (∀ left pos, pos ≤ toks.length → 8 * (toks.length - pos) + 4 ≤ f →
        parseMulDivLoop toks vars f left pos ≠ .error .fuel) ∧
    (∀ pos, pos ≤ toks.length → 8 * (toks.length - pos) + 3 ≤ f →
        parsePower toks vars f pos ≠ .error .fuel) ∧
    (∀ pos, pos ≤ toks.length → 8 * (toks.length - pos) + 2 ≤ f →
        parseUnary toks vars f pos ≠ .error .fuel) ∧
    (∀ pos, pos ≤ toks.length → 8 * (toks.length - pos) + 1 ≤ f →
        parsePrimary toks vars f pos ≠ .error .fuel) ∧
    (∀ pos, pos ≤ toks.length → 8 * (toks.length - pos) + 7 ≤ f →
        parseArgs toks vars f pos ≠ .error .fuel) ∧
    (∀ pos, pos ≤ toks.length → 8 * (toks.length - pos) + 7 ≤ f →
        parseArgsLoop toks vars f pos ≠ .error .fuel) := by
  intro f
  induction f with
  | zero =>
      refine ⟨?_, ?_, ?_, ?_, ?_, ?_, ?_, ?_, ?_, ?_⟩ <;> intros <;> omega
  | succ f ih =>
      obtain ⟨ihE, ihA, ihAL, ihM, ihML, ihP, ihU, ihPr, ihAr, ihArL⟩ := ih
      obtain ⟨pgE, pgA, pgAL, pgM, pgML, pgP, pgU, pgPr, pgAr, pgArL⟩ :=
        parse_progress toks vars f
      have hE : ∀ pos, pos ≤ toks.length →
          8 * (toks.length - pos) + 6 ≤ f + 1 →
          parseExpr toks vars (f + 1) pos ≠ .error .fuel := by
        intro pos hpos hfuel
        rw [parseExpr]
        exact ihA pos hpos (by omega)
      have hA : ∀ pos, pos ≤ toks.length →
          8 * (toks.length - pos) + 5 ≤ f + 1 →
          parseAddSub toks vars (f + 1) pos ≠ .error .fuel := by
        intro pos hpos hfuel h
        rw [parseAddSub] at h
        cases hm : parseMulDiv toks vars f pos with
        | error e =>
            rw [hm] at h
            simp [bind, Except.bind] at h
            exact ihM pos hpos (by omega) (by rw [hm, h])
        | ok lp =>
            obtain ⟨l, p1⟩ := lp
            rw [hm] at h
            simp only [bind, Except.bind] at h
            have hp := pgM pos l p1 hm
            exact ihAL l p1 hp.2 (by omega) h
      have hAL : ∀ left pos, pos ≤ toks.length →
          8 * (toks.length - pos) + 5 ≤ f + 1 →
          parseAddSubLoop toks vars (f + 1) left pos ≠ .error .fuel := by
        intro left pos hpos hfuel h
        rw [parseAddSubLoop] at h
        split at h
        · rename_i hcond
          have hlt : pos < toks.length := by
            rcases Bool.or_eq_true_iff.mp hcond with hc | hc
            · exact peekIsOp_lt hc
            · exact peekIsOp_lt hc
          cases hm : parseMulDiv toks vars f (pos + 1) with
          | error e =>
              rw [hm] at h
              simp [bind, Except.bind] at h
              exact ihM (pos + 1) (by omega) (by omega) (by rw [hm, h])
          | ok lp =>
              obtain ⟨r, p1⟩ := lp
              rw [hm] at h
              simp only [bind, Except.bind] at h
              have hp := pgM (pos + 1) r p1 hm
              exact ihAL _ p1 hp.2 (by omega) h
        · simp at h
      have hM : ∀ pos, pos ≤ toks.length →
          8 * (toks.length - pos) + 4 ≤ f + 1 →
          parseMulDiv toks vars (f + 1) pos ≠ .error .fuel := by
        intro pos hpos hfuel h
        rw [parseMulDiv] at h
        cases hm : parsePower toks vars f pos with
        | error e =>
            rw [hm] at h
            simp [bind, Except.bind] at h
            exact ihP pos hpos (by omega) (by rw [hm, h])
        | ok lp =>
            obtain ⟨l, p1⟩ := lp
            rw [hm] at h
            simp only [bind, Except.bind] at h
            have hp := pgP pos l p1 hm
            exact ihML l p1 hp.2 (by omega) h
      have hML : ∀ left pos, pos ≤ toks.length →
          8 * (toks.length - pos) + 4 ≤ f + 1 →
          parseMulDivLoop toks vars (f + 1) left pos ≠ .error .fuel := by
        intro left pos hpos hfuel h
        rw [parseMulDivLoop] at h
        split at h
        · rename_i hcond
          have hlt : pos < toks.length := by
            rcases Bool.or_eq_true_iff.mp hcond with hc | hc
            · rcases Bool.or_eq_true_iff.mp hc with hc2 | hc2
              · exact peekIsOp_lt hc2
              · exact peekIsOp_lt hc2
            · exact peekIsOp_lt hc
          cases hm : parsePower toks vars f (pos + 1) with
          | error e =>
              rw [hm] at h
              simp [bind, Except.bind] at h
              exact ihP (pos + 1) (by omega) (by omega) (by rw [hm, h])
          | ok lp =>
              obtain ⟨r, p1⟩ := lp
              rw [hm] at h
              simp only [bind, Except.bind] at h
              have hp := pgP (pos + 1) r p1 hm
              exact ihML _ p1 hp.2 (by omega) h
        · simp at h
      have hP : ∀ pos, pos ≤ toks.length →
          8 * (toks.length - pos) + 3 ≤ f + 1 →
          parsePower toks vars (f + 1) pos ≠ .error .fuel := by
        intro pos hpos hfuel h
        rw [parsePower] at h
        cases hu : parseUnary toks vars f pos with
        | error e =>
            rw [hu] at h
            simp [bind, Except.bind] at h
            exact ihU pos hpos (by omega) (by rw [hu, h])
        | ok lp =>
            obtain ⟨l, p1⟩ := lp
            rw [hu] at h
            simp only [bind, Except.bind] at h
            have hp := pgU pos l p1 hu
            split at h
            · rename_i hcond
              have hlt : p1 < toks.length := peekIsOp_lt hcond
              cases hr : parsePower toks vars f (p1 + 1) with
              | error e =>
                  rw [hr] at h
                  simp [bind, Except.bind] at h
                  exact ihP (p1 + 1) (by omega) (by omega) (by rw [hr, h])
              | ok rp =>
                  obtain ⟨r, p2⟩ := rp
                  rw [hr] at h
                  simp [bind, Except.bind] at h
            · simp at h
      have hU : ∀ pos, pos ≤ toks.length →
          8 * (toks.length - pos) + 2 ≤ f + 1 →
          parseUnary toks vars (f + 1) pos ≠ .error .fuel := by
        intro pos hpos hfuel h
        rw [parseUnary] at h
        split at h
        · rename_i hcond
          have hlt : pos < toks.length := by
            rcases Bool.or_eq_true_iff.mp hcond with hc | hc
            · exact peekIsOp_lt hc
            · exact peekIsOp_lt hc
          cases hu : parseUnary toks vars f (pos + 1) with
          | error e =>
              rw [hu] at h
              simp [bind, Except.bind] at h
              exact ihU (pos + 1) (by omega) (by omega) (by rw [hu, h])
          | ok lp =>
              obtain ⟨w, p1⟩ := lp
              rw [hu] at h
              simp [bind, Except.bind] at h
        · exact ihPr pos hpos (by omega) h
      have hPr : ∀ pos, pos ≤ toks.length →
          8 * (toks.length - pos) + 1 ≤ f + 1 →
          parsePrimary toks vars (f + 1) pos ≠ .error .fuel := by
        intro pos hpos hfuel h
        rw [parsePrimary] at h
        cases ht : toks[pos]? with
        | none => rw [ht] at h; simp at h
        | some t =>
            rw [ht] at h
            have hlt := getElem?_some_lt ht
            cases t with
            | num w => simp at h
            | ident name =>
                simp only at h
                split at h
                · simp [Token.isOp] at *
                · split at h
                  · rename_i hcall
                    have hlt2 : pos + 1 < toks.length := peekIsOp_lt hcall
                    cases ha : parseArgs toks vars f (pos + 2) with
                    | error e =>
                        rw [ha] at h
                        simp [bind, Except.bind] at h
                        exact ihAr (pos + 2) (by omega) (by omega) (by rw [ha, h])
                    | ok ap =>
                        obtain ⟨args, p1⟩ := ap
                        rw [ha] at h
                        simp only [bind, Except.bind] at h
                        split at h
                        · cases hc : callFn name args with
                          | error e =>
                              rw [hc] at h
                              simp [bind, Except.bind] at h
                              exact callFn_ne_fuel name args (by rw [hc, h])
                          | ok w =>
                              rw [hc] at h
                              simp [bind, Except.bind] at h
                        · simp at h
                  · exact resolveName_ne_fuel vars name pos h
            | op s =>
                simp only at h
                split at h
                · cases he : parseExpr toks vars f (pos + 1) with
                  | error e =>
                      rw [he] at h
                      simp [bind, Except.bind] at h
                      exact ihE (pos + 1) (by omega) (by omega) (by rw [he, h])
                  | ok wp =>
                      obtain ⟨w, p1⟩ := wp
                      rw [he] at h
                      simp only [bind, Except.bind] at h
                      split at h
                      · simp at h
                      · simp at h
                · simp at h
      have hAr : ∀ pos, pos ≤ toks.length →
          8 * (toks.length - pos) + 7 ≤ f + 1 →
          parseArgs toks vars (f + 1) pos ≠ .error .fuel := by
        intro pos hpos hfuel h
        rw [parseArgs] at h
        split at h
        · cases he : parseExpr toks vars f pos with
          | error e =>
              rw [he] at h
              simp [bind, Except.bind] at h
              exact ihE pos hpos (by omega) (by rw [he, h])
          | ok ap =>
              obtain ⟨a, p1⟩ := ap
              rw [he] at h
              simp only [bind, Except.bind] at h
              have hp := pgE pos a p1 he
              cases hl : parseArgsLoop toks vars f p1 with
              | error e =>
                  rw [hl] at h
                  simp [bind, Except.bind] at h
                  exact ihArL p1 hp.2 (by omega) (by rw [hl, h])
              | ok mp =>
                  obtain ⟨more, p2⟩ := mp
                  rw [hl] at h
                  simp [bind, Except.bind] at h
        · simp at h
      have hArL : ∀ pos, pos ≤ toks.length →
          8 * (toks.length - pos) + 7 ≤ f + 1 →
          parseArgsLoop toks vars (f + 1) pos ≠ .error .fuel := by
        intro pos hpos hfuel h
        rw [parseArgsLoop] at h
        split at h
        · rename_i hcond
          have hlt : pos < toks.length := peekIsOp_lt hcond
          cases he : parseExpr toks vars f (pos + 1) with
          | error e =>
              rw [he] at h
              simp [bind, Except.bind] at h
              exact ihE (pos + 1) (by omega) (by omega) (by rw [he, h])
          | ok ap =>
              obtain ⟨a, p1⟩ := ap
              rw [he] at h
              simp only [bind, Except.bind] at h
              have hp := pgE (pos + 1) a p1 he
              cases hl : parseArgsLoop toks vars f p1 with
              | error e =>
                  rw [hl] at h
                  simp [bind, Except.bind] at h
                  exact ihArL p1 hp.2 (by omega) (by rw [hl, h])
              | ok mp =>
                  obtain ⟨more, p2⟩ := mp
                  rw [hl] at h
                  simp [bind, Except.bind] at h
        · simp at h
      exact ⟨hE, hA, hAL, hM, hML, hP, hU, hPr, hAr, hArL⟩

theorem tokenize_ne_fuel (s : String) : tokenize s ≠ .error .fuel :=
  tokenizeGo_fuel (s.data.length + 1) s.data (by omega)

theorem tokenize_count {s : String} {toks : List Token}
    (h : tokenize s = .ok toks) : toks.length ≤ s.length :=
  tokenizeGo_count (s.data.length + 1) s.data toks h

/-- The complete pipeline never exhausts its fuel: `evaluate` terminates with
an ordinary value or error on every input. -/
theorem evaluate_ne_fuel (expr : String) (vars : Vars) :
    evaluate expr vars ≠ .error .fuel := by
  intro h
  rw [evaluate] at h
  cases ht : tokenize expr with
  | error e =>
      rw [ht] at h
      simp [bind, Except.bind] at h
      exact tokenize_ne_fuel expr (by rw [ht, h])
  | ok toks =>
      rw [ht] at h
      simp only [bind, Except.bind] at h
      cases hp : parseExpr toks vars (8 * toks.length + 8) 0 with
      | error e =>
          rw [hp] at h
          simp [bind, Except.bind] at h
          exact (parse_fuel toks vars (8 * toks.length + 8)).1 0 (by omega)
            (by omega) (by rw [hp, h])
      | ok vp =>
          obtain ⟨v, p⟩ := vp
          rw [hp] at h
          simp only [bind, Except.bind] at h
          split at h <;> simp at h

theorem safeEval_ne_fuel (expr : String) (vars : Vars) :
    safeEval expr vars ≠ .error .fuel := by
  intro h
  rw [safeEval] at h
  cases he : evaluate expr vars with
  | error e =>
      rw [he] at h
      simp [bind, Except.bind] at h
      exact evaluate_ne_fuel expr vars (by rw [he, h])
  | ok r =>
      rw [he] at h
      simp only [bind, Except.bind] at h
      split at h <;> simp at h

/-- A well-formed plain numeric literal (no exponent suffix): nonempty, only
digits and at most one decimal point, not ending in the decimal point, and
accepted by `parseFloat`. -/
def GoodLit (s : String) : Prop :=
  s.data ≠ [] ∧ (∀ c ∈ s.data, c.isDigit = true ∨ c = '.') ∧
    s.data.count '.' ≤ 1 ∧ s.data.getLast? ≠ some '.' ∧
    (parseFloatQ s).isSome = true

instance (s : String) : Decidable (GoodLit s) := by
  unfold GoodLit
  infer_instance

/-- A character that ends a number run of the scanner (in the state reached
while scanning a plain literal). -/
def StopChar (d : Char) : Prop :=
  d.isDigit = false ∧ d ≠ '.' ∧ d ≠ 'e' ∧ d ≠ 'E'

/-- The scanner consumes exactly a digits-and-dot run and leaves a stopping
tail in place. -/
theorem scanNum_lit : ∀ (cs : List Char) (acc : String) (hd : Bool),
    (∀ c ∈ cs, c.isDigit = true ∨ c = '.') →
    cs.count '.' ≤ (if hd then 0 else 1) →
    ∀ tail : List Char, (tail = [] ∨ ∃ d rest, tail = d :: rest ∧ StopChar d) →
    scanNum (cs ++ tail) acc hd false false = (⟨acc.data ++ cs⟩, tail) := by
  intro cs
  induction cs with
  | nil =>
      intro acc hd _ _ tail htail
      rcases htail with rfl | ⟨d, rest, rfl, hstop⟩
      · simp [scanNum]
      · obtain ⟨hd1, hd2, hd3, hd4⟩ := hstop
        rw [List.nil_append, scanNum]
        simp [hd1, hd2, hd3, hd4]
  | cons c cs ih =>
      intro acc hd hcls hcount tail htail
      rcases hcls c (by simp) with hdig | hdot
      · rw [List.cons_append, scanNum]
        simp only [hdig, if_true, Bool.false_and, Bool.false_eq_true, if_false]
        have hcount2 : cs.count '.' ≤ (if hd then 0 else 1) := by
          by_cases hc : c = '.'
          · rw [hc] at hdig; simp at hdig
          · rw [List.count_cons] at hcount
            split at hcount <;> split <;> simp_all <;> omega
        rw [ih (acc.push c) hd (fun x hx => hcls x (by simp [hx])) hcount2 tail htail]
        simp [String.push]
      · subst hdot
        have hhd : hd = false := by
          cases hd with
          | false => rfl
          | true =>
              rw [List.count_cons] at hcount
              simp at hcount
        subst hhd
        rw [List.cons_append, scanNum]
        have hnd : ('.').isDigit = false := by decide
        simp only [hnd, Bool.false_and, Bool.false_eq_true, if_false]
        simp only [show (('.' : Char) == '.') = true from by decide, Bool.true_and,
          Bool.not_false, Bool.and_true, if_true]
        have hcount2 : cs.count '.' ≤ (if true then 0 else 1) := by
          rw [List.count_cons] at hcount
          simp at hcount ⊢
          omega
        rw [ih (acc.push '.') true (fun x hx => hcls x (by simp [hx])) hcount2 tail htail]
        simp [String.push]

/-- A well-formed plain literal does not match the malformed-number
patterns. -/
theorem malformedNum_lit {s : String} (h : GoodLit s) :
    malformedNum s = false := by
  obtain ⟨hne, hcls, _, hlast, _⟩ := h
  rw [malformedNum]
  have hrev : s.data.reverse ≠ [] := by simpa using hne
  cases hr : s.data.reverse with
  | nil => exact absurd hr hrev
  | cons c rest =>
      have hmem : c ∈ s.data := by
        have : c ∈ s.data.reverse := by rw [hr]; simp
        simpa using this
      have hlast2 : s.data.getLast? = some c := by
        rw [← List.head?_reverse, hr]
        rfl
      have hcd : c ≠ '.' := by
        intro hc
        rw [hc] at hlast2
        exact hlast hlast2
      rcases hcls c hmem with hdig | hdot
      · have h1 : (c == '.') = false := by
          simp only [beq_eq_false_iff_ne, ne_eq]
          exact hcd
        have h2 : (c == 'e') = false := by
          simp only [beq_eq_false_iff_ne, ne_eq]
          intro hc
          rw [hc] at hdig
          simp at hdig
        have h3 : (c == 'E') = false := by
          simp only [beq_eq_false_iff_ne, ne_eq]
          intro hc
          rw [hc] at hdig
          simp at hdig
        have h4 : (c == '+') = false := by
          simp only [beq_eq_false_iff_ne, ne_eq]
          intro hc
          rw [hc] at hdig
          simp at hdig
        have h5 : (c == '-') = false := by
          simp only [beq_eq_false_iff_ne, ne_eq]
          intro hc
          rw [hc] at hdig
          simp at hdig
        simp [h1, h2, h3, h4, h5]
      · exact absurd hdot hcd

theorem numStart_of_goodLit {s : String} (h : GoodLit s) :
    ∃ c cs, s.data = c :: cs ∧ isNumStart c = true ∧ c.isWhitespace = false := by
  obtain ⟨hne, hcls, _, _, _⟩ := h
  cases hd : s.data with
  | nil => exact absurd hd hne
  | cons c cs =>
      refine ⟨c, cs, rfl, ?_, ?_⟩
      · rcases hcls c (by rw [hd]; simp) with hdig | hdot
        · simp [isNumStart, hdig]
        · simp [isNumStart, hdot]
      · rcases hcls c (by rw [hd]; simp) with hdig | hdot
        · cases hws : c.isWhitespace with
          | false => rfl
          | true =>
              have : c = ' ' ∨ c = '\t' ∨ c = '\r' ∨ c = '\n' := by
                rw [Char.isWhitespace] at hws
                simp only [Bool.or_eq_true_iff, beq_iff_eq,
                  decide_eq_true_eq] at hws
                tauto
              rcases this with rfl | rfl | rfl | rfl <;> simp at hdig
        · subst hdot
          decide

/-- One tokenizer step across a whole well-formed literal followed by a
stopping tail: a single number token carrying `parseFloat` of the literal. -/
theorem tokenizeGo_lit (f : Nat) (lit : String) (h : GoodLit lit)
    (tail : List Char)
    (htail : tail = [] ∨ ∃ d rest, tail = d :: rest ∧ StopChar d) :
    tokenizeGo (f + 1) (lit.data ++ tail) =
      (do
        let toks ← tokenizeGo f tail
        Except.ok (Token.num (floatOrNaN lit) :: toks)) := by
  obtain ⟨c, cs, hdata, hstart, hws⟩ := numStart_of_goodLit h
  obtain ⟨hne, hcls, hcount, hlast, hsome⟩ := h
  have hscan : scanNum (lit.data ++ tail) "" false false false = (lit, tail) := by
    have := scanNum_lit lit.data "" false
      (fun x hx => hcls x hx) (by simpa using hcount) tail htail
    simpa using this
  rw [hdata] at hscan ⊢
  rw [List.cons_append, tokenizeGo]
  simp only [hws, Bool.false_eq_true, if_false, hstart, if_true]
  rw [← List.cons_append, hscan]
  obtain ⟨q, hq⟩ := Option.isSome_iff_exists.mp hsome
  rw [hq]
  rw [malformedNum_lit ⟨hne, hcls, hcount, hlast, hsome⟩]
  simp only [Bool.false_eq_true, if_false]
  rw [floatOrNaN, hq]

theorem tokenizeGo_ws (f : Nat) (rest : List Char) :
    tokenizeGo (f + 1) (' ' :: rest) = tokenizeGo f rest := by
  rw [tokenizeGo]
  simp

theorem tokenizeGo_minus (f : Nat) (rest : List Char) :
    tokenizeGo (f + 1) ('-' :: rest) =
      (do
        let toks ← tokenizeGo f rest
        Except.ok (Token.op "-" :: toks)) := by
  rw [tokenizeGo]
  have hs : String.singleton '-' = "-" := rfl
  simp [isNumStart, isIdentStart, hs]

theorem tokenizeGo_pow (f : Nat) (rest : List Char) :
    tokenizeGo (f + 1) ('*' :: '*' :: rest) =
      (do
        let toks ← tokenizeGo f rest
        Except.ok (Token.op "**" :: toks)) := by
  rw [tokenizeGo]
  simp [isNumStart, isIdentStart]

theorem tokenizeGo_lparen (f : Nat) (rest : List Char) :
    tokenizeGo (f + 1) ('(' :: rest) =
      (do
        let toks ← tokenizeGo f rest
        Except.ok (Token.op "(" :: toks)) := by
  rw [tokenizeGo]
  have hs : String.singleton '(' = "(" := rfl
  simp [isNumStart, isIdentStart, hs]

theorem tokenizeGo_rparen (f : Nat) (rest : List Char) :
    tokenizeGo (f + 1) (')' :: rest) =
      (do
        let toks ← tokenizeGo f rest
        Except.ok (Token.op ")" :: toks)) := by
  rw [tokenizeGo]
  have hs : String.singleton ')' = ")" := rfl
  simp [isNumStart, isIdentStart, hs]

theorem tokenizeGo_nil (f : Nat) : tokenizeGo (f + 1) [] = .ok [] := by
  rw [tokenizeGo]

/-- Tokenization of `-a ** b` for well-formed plain literals `a`, `b`. -/
theorem tokenize_neg_pow (a b : String) (ha : GoodLit a) (hb : GoodLit b) :
    tokenize ("-" ++ a ++ " ** " ++ b) =
      .ok [Token.op "-", Token.num (floatOrNaN a), Token.op "**",
           Token.num (floatOrNaN b)] := by
  obtain ⟨g, hg⟩ : ∃ g, a.data.length + b.data.length = g + 1 := by
    obtain ⟨c, cs, hd, _, _⟩ := numStart_of_goodLit ha
    exact ⟨cs.length + b.data.length, by rw [hd]; simp only [List.length_cons]; omega⟩
  have hstop : ∀ rest : List Char,
      (' ' :: rest = ([] : List Char) ∨
        ∃ d r, ' ' :: rest = d :: r ∧ StopChar d) :=
    fun rest => Or.inr ⟨' ', rest, rfl, by decide, by decide, by decide, by decide⟩
  have hdata : ("-" ++ a ++ " ** " ++ b).data =
      '-' :: (a.data ++ (' ' :: '*' :: '*' :: ' ' :: b.data)) := by
    simp [String.data_append]
  have hlen : ("-" ++ a ++ " ** " ++ b).data.length + 1 =
      g + 1 + 1 + 1 + 1 + 1 + 1 + 1 := by
    rw [hdata]
    simp only [List.length_cons, List.length_append]
    omega
  rw [tokenize, hlen, hdata]
  rw [tokenizeGo_minus]
  rw [show a.data ++ (' ' :: '*' :: '*' :: ' ' :: b.data) =
        a.data ++ (' ' :: '*' :: '*' :: ' ' :: b.data) from rfl]
  rw [tokenizeGo_lit _ a ha _ (hstop _)]
  rw [tokenizeGo_ws, tokenizeGo_pow, tokenizeGo_ws]
  rw [show b.data = b.data ++ ([] : List Char) from (List.append_nil _).symm]
  rw [tokenizeGo_lit _ b hb [] (Or.inl rfl)]
  rw [tokenizeGo_nil]
  simp [bind, Except.bind]

/-- Tokenization of `a ** b ** c` for well-formed plain literals. -/
theorem tokenize_pow_pow (a b c : String)
    (ha : GoodLit a) (hb : GoodLit b) (hc : GoodLit c) :
    tokenize (a ++ " ** " ++ b ++ " ** " ++ c) =
      .ok [Token.num (floatOrNaN a), Token.op "**", Token.num (floatOrNaN b),
           Token.op "**", Token.num (floatOrNaN c)] := by
  obtain ⟨g, hg⟩ : ∃ g, c.data.length = g + 1 := by
    obtain ⟨x, xs, hd, _, _⟩ := numStart_of_goodLit hc
    exact ⟨xs.length, by rw [hd]; simp only [List.length_cons]⟩
  have hstop : ∀ rest : List Char,
      (' ' :: rest = ([] : List Char) ∨
        ∃ d r, ' ' :: rest = d :: r ∧ StopChar d) :=
    fun rest => Or.inr ⟨' ', rest, rfl, by decide, by decide, by decide, by decide⟩
  have hdata : (a ++ " ** " ++ b ++ " ** " ++ c).data =
      a.data ++ (' ' :: '*' :: '*' :: ' ' ::
        (b.data ++ (' ' :: '*' :: '*' :: ' ' :: c.data))) := by
    simp [String.data_append]
  have hlen : (a ++ " ** " ++ b ++ " ** " ++ c).data.length + 1 =
      (a.data.length + b.data.length + g) +
        1 + 1 + 1 + 1 + 1 + 1 + 1 + 1 + 1 + 1 := by
    rw [hdata]
    simp only [List.length_cons, List.length_append]
    omega
  rw [tokenize, hlen, hdata]
  rw [tokenizeGo_lit _ a ha _ (hstop _)]
  rw [tokenizeGo_ws, tokenizeGo_pow, tokenizeGo_ws]
  rw [tokenizeGo_lit _ b hb _ (hstop _)]
  rw [tokenizeGo_ws, tokenizeGo_pow, tokenizeGo_ws]
  rw [show c.data = c.data ++ ([] : List Char) from (List.append_nil _).symm]
  rw [tokenizeGo_lit _ c hc [] (Or.inl rfl)]
  rw [tokenizeGo_nil]
  simp [bind, Except.bind]

/-- Tokenization of `a ** (b ** c)` for well-formed plain literals. -/
theorem tokenize_pow_paren (a b c : String)
    (ha : GoodLit a) (hb : GoodLit b) (hc : GoodLit c) :
    tokenize (a ++ " ** (" ++ b ++ " ** " ++ c ++ ")") =
      .ok [Token.num (floatOrNaN a), Token.op "**", Token.op "(",
           Token.num (floatOrNaN b), Token.op "**", Token.num (floatOrNaN c),
           Token.op ")"] := by
  obtain ⟨g, hg⟩ : ∃ g, c.data.length = g + 1 := by
    obtain ⟨x, xs, hd, _, _⟩ := numStart_of_goodLit hc
    exact ⟨xs.length, by rw [hd]; simp only [List.length_cons]⟩
  have hstop : ∀ rest : List Char,
      (' ' :: rest = ([] : List Char) ∨
        ∃ d r, ' ' :: rest = d :: r ∧ StopChar d) :=
    fun rest => Or.inr ⟨' ', rest, rfl, by decide, by decide, by decide, by decide⟩
  have hstopP : ∀ rest : List Char,
      (')' :: rest = ([] : List Char) ∨
        ∃ d r, ')' :: rest = d :: r ∧ StopChar d) :=
    fun rest => Or.inr ⟨')', rest, rfl, by decide, by decide, by decide, by decide⟩
  have hdata : (a ++ " ** (" ++ b ++ " ** " ++ c ++ ")").data =
      a.data ++ (' ' :: '*' :: '*' :: ' ' :: '(' ::
        (b.data ++ (' ' :: '*' :: '*' :: ' ' :: (c.data ++ [')'])))) := by
    simp [String.data_append]
  have hlen : (a ++ " ** (" ++ b ++ " ** " ++ c ++ ")").data.length + 1 =
      (a.data.length + b.data.length + g) +
        1 + 1 + 1 + 1 + 1 + 1 + 1 + 1 + 1 + 1 + 1 + 1 := by
    rw [hdata]
    simp only [List.length_cons, List.length_append, List.length_nil]
    omega
  rw [tokenize, hlen, hdata]
  rw [tokenizeGo_lit _ a ha _ (hstop _)]
  rw [tokenizeGo_ws, tokenizeGo_pow, tokenizeGo_ws, tokenizeGo_lparen]
  rw [tokenizeGo_lit _ b hb _ (hstop _)]
  rw [tokenizeGo_ws, tokenizeGo_pow, tokenizeGo_ws]
  rw [tokenizeGo_lit _ c hc _ (hstopP _)]
  rw [tokenizeGo_rparen, tokenizeGo_nil]
  simp [bind, Except.bind]

end SharedUtils

end Belforge

namespace Belforge

namespace SharedUtils

/-- Symbolic run of the parser on the token shape of `-a ** b`: the unary
minus is applied to the left operand BEFORE exponentiation. -/
theorem parse_neg_pow (va vb : JsVal) (vars : Vars) :
    parseExpr [Token.op "-", Token.num va, Token.op "**", Token.num vb]
        vars 40 0 =
      .ok (JsVal.pow (JsVal.neg va) vb, 4) := by
  simp [parseExpr, parseAddSub, parseAddSubLoop, parseMulDiv, parseMulDivLoop,
    parsePower, parseUnary, parsePrimary, parseArgs, parseArgsLoop,
    peekIsOp, Token.isOp, bind, Except.bind]

/-- Symbolic run of the parser on the token shape of `a ** b ** c`: the
right-hand side of `**` recursively calls the power rule, so the result is
`pow a (pow b c)`. -/
theorem parse_pow_pow (va vb vc : JsVal) (vars : Vars) :
    parseExpr [Token.num va, Token.op "**", Token.num vb, Token.op "**",
        Token.num vc] vars 48 0 =
      .ok (JsVal.pow va (JsVal.pow vb vc), 5) := by
  simp [parseExpr, parseAddSub, parseAddSubLoop, parseMulDiv, parseMulDivLoop,
    parsePower, parseUnary, parsePrimary, parseArgs, parseArgsLoop,
    peekIsOp, Token.isOp, bind, Except.bind]

/-- Symbolic run of the parser on the token shape of `a ** (b ** c)`:
explicitly parenthesized, same value `pow a (pow b c)`. -/
theorem parse_pow_paren (va vb vc : JsVal) (vars : Vars) :
    parseExpr [Token.num va, Token.op "**", Token.op "(", Token.num vb,
        Token.op "**", Token.num vc, Token.op ")"] vars 64 0 =
      .ok (JsVal.pow va (JsVal.pow vb vc), 7) := by
  simp [parseExpr, parseAddSub, parseAddSubLoop, parseMulDiv, parseMulDivLoop,
    parsePower, parseUnary, parsePrimary, parseArgs, parseArgsLoop,
    peekIsOp, Token.isOp, bind, Except.bind]

/-- `evaluate "-a ** b"` for well-formed literals: the minus binds to the
base, giving `pow (-a) b`. -/
theorem evaluate_neg_pow (a b : String) (ha : GoodLit a) (hb : GoodLit b) :
    evaluate ("-" ++ a ++ " ** " ++ b) [] =
      .ok (JsVal.pow (JsVal.neg (floatOrNaN a)) (floatOrNaN b)) := by
  rw [evaluate, tokenize_neg_pow a b ha hb]
  simp only [bind, Except.bind, List.length_cons, List.length_nil]
  norm_num
  rw [parse_neg_pow]
  simp

/-- `evaluate "a ** b ** c"` for well-formed literals: the unparenthesized
chain groups to the right. -/
theorem evaluate_pow_pow (a b c : String)
    (ha : GoodLit a) (hb : GoodLit b) (hc : GoodLit c) :
    evaluate (a ++ " ** " ++ b ++ " ** " ++ c) [] =
      .ok (JsVal.pow (floatOrNaN a)
        (JsVal.pow (floatOrNaN b) (floatOrNaN c))) := by
  rw [evaluate, tokenize_pow_pow a b c ha hb hc]
  simp only [bind, Except.bind, List.length_cons, List.length_nil]
  norm_num
  rw [parse_pow_pow]
  simp

/-- `evaluate "a ** (b ** c)"` for well-formed literals: the explicitly
right-parenthesized form gives the same value. -/
theorem evaluate_pow_paren (a b c : String)
    (ha : GoodLit a) (hb : GoodLit b) (hc : GoodLit c) :
    evaluate (a ++ " ** (" ++ b ++ " ** " ++ c ++ ")") [] =
      .ok (JsVal.pow (floatOrNaN a)
        (JsVal.pow (floatOrNaN b) (floatOrNaN c))) := by
  rw [evaluate, tokenize_pow_paren a b c ha hb hc]
  simp only [bind, Except.bind, List.length_cons, List.length_nil]
  norm_num
  rw [parse_pow_paren]
  simp

end SharedUtils

end Belforge
namespace Belforge

/-- A string with a non-empty prefix whose first character differs from the
other string's first character is distinct from it, whatever the suffix. -/
theorem append_ne_of_head (p s m : String)
    (hsome : p.data.head?.isSome = true)
    (hne : p.data.head? ≠ m.data.head?) : p ++ s ≠ m := by
  intro h
  apply hne
  have hdata : (p ++ s).data = m.data := congrArg String.data h
  rw [String.data_append] at hdata
  rw [← hdata]
  cases hp : p.data with
  | nil => rw [hp] at hsome; simp at hsome
  | cons c cs => simp [hp]

/-- If the generic tokenizer message built from a character equals the
generic message for `^`, the character was `^`. -/
theorem generic_msg_char {c : Char}
    (h : "Unexpected character: " ++ String.singleton c =
      "Unexpected character: ^") : c = '^' := by
  have hdata := congrArg String.data h
  rw [String.data_append] at hdata
  have hsing : (String.singleton c).data = [c] := rfl
  rw [hsing] at hdata
  have hm : ("Unexpected character: ^").data =
      ("Unexpected character: ").data ++ ['^'] := by decide
  rw [hm] at hdata
  have hc := List.append_cancel_left hdata
  simpa using hc

namespace SharedUtils

/-- When the shared-utilities tokenizer reaches a `^`, it fails at once with
the dedicated exponentiation guidance. -/
theorem tokenizeGo_caret (f : Nat) (rest : List Char) :
    tokenizeGo (f + 1) ('^' :: rest) =
      .error (.err "Use ** or pow(a, b) for exponents, not ^") := by
  rw [tokenizeGo]
  simp [isNumStart, isIdentStart]

/-- The shared-utilities tokenizer never produces the generic
`Unexpected character` message for `^`: the dedicated branch is checked
first, and the generic branch only fires on characters other than `^`. -/
theorem tokenizeGo_no_generic_caret : ∀ (f : Nat) (cs : List Char),
    tokenizeGo f cs ≠ .error (.err "Unexpected character: ^") := by
  intro f cs
  induction f, cs using tokenizeGo.induct
  case case1 => intro h; simp [tokenizeGo] at h
  case case2 => intro h; simp [tokenizeGo] at h
  case case3 f c rest hws ih =>
      intro h
      rw [tokenizeGo] at h
      simp [hws] at h
      exact ih h
  case case4 f c rest hws hnum hq =>
      intro h
      rw [tokenizeGo] at h
      simp [hws, hnum, hq] at h
      exact append_ne_of_head "Invalid number: " _ _ (by decide) (by decide) h
  case case5 f c rest hws hnum q hq hmal =>
      intro h
      rw [tokenizeGo] at h
      simp [hws, hnum, hq, hmal] at h
      exact append_ne_of_head "Invalid number: " _ _ (by decide) (by decide) h
  case case6 f c rest hws hnum q hq hmal ih =>
      intro h
      rw [tokenizeGo] at h
      cases hr : tokenizeGo f (scanNum (c :: rest) "" false false false).2 with
      | error e =>
          simp [hws, hnum, hq, hmal, hr, bind, Except.bind] at h
          exact ih (by rw [hr, h])
      | ok toks => simp [hws, hnum, hq, hmal, hr, bind, Except.bind] at h
  case case7 f c rest hws hnum hid hmath ih =>
      intro h
      rw [tokenizeGo] at h
      cases hr : tokenizeGo f (scanIdent (scanIdent (c :: rest)).2.tail).2 with
      | error e =>
          simp [hws, hnum, hid, hmath, hr, bind, Except.bind] at h
          exact ih (by rw [hr, h])
      | ok toks => simp [hws, hnum, hid, hmath, hr, bind, Except.bind] at h
  case case8 f c rest hws hnum hid hmath ih =>
      intro h
      rw [tokenizeGo] at h
      cases hr : tokenizeGo f (scanIdent (c :: rest)).2 with
      | error e =>
          simp [hws, hnum, hid, hmath, hr, bind, Except.bind] at h
          exact ih (by rw [hr, h])
      | ok toks => simp [hws, hnum, hid, hmath, hr, bind, Except.bind] at h
  case case9 f c rest hws hnum hid hstar ih =>
      intro h
      rw [tokenizeGo] at h
      cases hr : tokenizeGo f rest.tail with
      | error e =>
          simp [hws, hnum, hid, hstar, hr, bind, Except.bind] at h
          exact ih (by rw [hr, h])
      | ok toks => simp [hws, hnum, hid, hstar, hr, bind, Except.bind] at h
  case case10 f c rest hws hnum hid hstar hops ih =>
      intro h
      rw [tokenizeGo] at h
      cases hr : tokenizeGo f rest with
      | error e =>
          simp [hws, hnum, hid, hstar, hops, hr, bind, Except.bind] at h
          exact ih (by rw [hr, h])
      | ok toks => simp [hws, hnum, hid, hstar, hops, hr, bind, Except.bind] at h
  case case11 f c rest hws hnum hid hstar hops hcaret =>
      intro h
      rw [tokenizeGo] at h
      simp [hws, hnum, hid, hstar, hops, hcaret] at h
  case case12 f c rest hws hnum hid hstar hops hcaret =>
      intro h
      rw [tokenizeGo] at h
      simp [hws, hnum, hid, hstar, hops, hcaret] at h
      exact hcaret (by simp [generic_msg_char h])

/-- Number tokens emitted by the shared-utilities tokenizer are never `NaN`:
the number branch only emits a token when `parseFloat` of the captured text
succeeded. -/
theorem tokenizeGo_no_nan : ∀ (f : Nat) (cs : List Char) (toks : List Token),
    tokenizeGo f cs = .ok toks →
      ∀ v : JsVal, Token.num v ∈ toks → v.isNaN = false := by
  intro f cs
  induction f, cs using tokenizeGo.induct
  case case1 => intro toks h; simp [tokenizeGo] at h
  case case2 =>
      intro toks h
      simp [tokenizeGo] at h
      intro v hv
      rw [h] at hv
      simp at hv
  case case3 f c rest hws ih =>
      intro toks h
      rw [tokenizeGo] at h
      simp [hws] at h
      exact ih toks h
  case case4 f c rest hws hnum hq =>
      intro toks h
      rw [tokenizeGo] at h
      simp [hws, hnum, hq] at h
  case case5 f c rest hws hnum q hq hmal =>
      intro toks h
      rw [tokenizeGo] at h
      simp [hws, hnum, hq, hmal] at h
  case case6 f c rest hws hnum q hq hmal ih =>
      intro toks h
      rw [tokenizeGo] at h
      cases hr : tokenizeGo f (scanNum (c :: rest) "" false false false).2 with
      | error e => simp [hws, hnum, hq, hmal, hr, bind, Except.bind] at h
      | ok toks2 =>
          simp [hws, hnum, hq, hmal, hr, bind, Except.bind] at h
          intro v hv
          have hv2 : Token.num v ∈ Token.num (JsVal.num q) :: toks2 := by
            first
              | (rw [h] at hv; exact hv)
              | (rw [← h] at hv; exact hv)
          rcases List.mem_cons.mp hv2 with h1 | h1
          · injection h1 with h2
            rw [h2]
            rfl
          · exact ih toks2 hr v h1
  case case7 f c rest hws hnum hid hmath ih =>
      intro toks h
      rw [tokenizeGo] at h
      cases hr : tokenizeGo f (scanIdent (scanIdent (c :: rest)).2.tail).2 with
      | error e => simp [hws, hnum, hid, hmath, hr, bind, Except.bind] at h
      | ok toks2 =>
          simp [hws, hnum, hid, hmath, hr, bind, Except.bind] at h
          intro v hv
          have hv2 : Token.num v ∈
              Token.ident (scanIdent (scanIdent (c :: rest)).2.tail).1 :: toks2 := by
            first
              | (rw [h] at hv; exact hv)
              | (rw [← h] at hv; exact hv)
          rcases List.mem_cons.mp hv2 with h1 | h1
          · simp at h1
          · exact ih toks2 hr v h1
  case case8 f c rest hws hnum hid hmath ih =>
      intro toks h
      rw [tokenizeGo] at h
      cases hr : tokenizeGo f (scanIdent (c :: rest)).2 with
      | error e => simp [hws, hnum, hid, hmath, hr, bind, Except.bind] at h
      | ok toks2 =>
          simp [hws, hnum, hid, hmath, hr, bind, Except.bind] at h
          intro v hv
          have hv2 : Token.num v ∈ Token.ident (scanIdent (c :: rest)).1 :: toks2 := by
            first
              | (rw [h] at hv; exact hv)
              | (rw [← h] at hv; exact hv)
          rcases List.mem_cons.mp hv2 with h1 | h1
          · simp at h1
          · exact ih toks2 hr v h1
  case case9 f c rest hws hnum hid hstar ih =>
      intro toks h
      rw [tokenizeGo] at h
      cases hr : tokenizeGo f rest.tail with
      | error e => simp [hws, hnum, hid, hstar, hr, bind, Except.bind] at h
      | ok toks2 =>
          simp [hws, hnum, hid, hstar, hr, bind, Except.bind] at h
          intro v hv
          have hv2 : Token.num v ∈ Token.op "**" :: toks2 := by
            first
              | (rw [h] at hv; exact hv)
              | (rw [← h] at hv; exact hv)
          rcases List.mem_cons.mp hv2 with h1 | h1
          · simp at h1
          · exact ih toks2 hr v h1
  case case10 f c rest hws hnum hid hstar hops ih =>
      intro toks h
      rw [tokenizeGo] at h
      cases hr : tokenizeGo f rest with
      | error e => simp [hws, hnum, hid, hstar, hops, hr, bind, Except.bind] at h
      | ok toks2 =>
          simp [hws, hnum, hid, hstar, hops, hr, bind, Except.bind] at h
          intro v hv
          have hv2 : Token.num v ∈ Token.op (String.singleton c) :: toks2 := by
            first
              | (rw [h] at hv; exact hv)
              | (rw [← h] at hv; exact hv)
          rcases List.mem_cons.mp hv2 with h1 | h1
          · simp at h1
          · exact ih toks2 hr v h1
  case case11 f c rest hws hnum hid hstar hops hcaret =>
      intro toks h
      rw [tokenizeGo] at h
      simp [hws, hnum, hid, hstar, hops, hcaret] at h
  case case12 f c rest hws hnum hid hstar hops hcaret =>
      intro toks h
      rw [tokenizeGo] at h
      simp [hws, hnum, hid, hstar, hops, hcaret] at h

/-- A value returned by the shared-utilities `safeEval` facade is neither
`NaN` nor infinite. -/
theorem safeEval_ok_finite (expr : String) (vars : Vars) (v : JsVal)
    (h : safeEval expr vars = .ok v) :
    v.isNaN = false ∧ v.isFiniteNum = true := by
  rw [safeEval] at h
  cases he : evaluate expr vars with
  | error e => rw [he] at h; simp [bind, Except.bind] at h
  | ok r =>
      rw [he] at h
      simp only [bind, Except.bind] at h
      by_cases hn : (r.isNaN || !r.isFiniteNum) = true
      · rw [if_pos hn] at h
        simp at h
      · rw [if_neg hn] at h
        have hrv : r = v := by simpa using h
        subst hrv
        simpa using hn

/-- Whenever the shared-utilities evaluator's final result is `NaN` or
infinite, the `safeEval` facade rejects it with the dedicated message. -/
theorem safeEval_rejects_nonfinite (expr : String) (vars : Vars) (v : JsVal)
    (he : evaluate expr vars = .ok v)
    (hnf : (v.isNaN || !v.isFiniteNum) = true) :
    safeEval expr vars =
      .error (.err "Expression must return a valid number") := by
  rw [safeEval, he]
  simp [bind, Except.bind, hnf]

end SharedUtils

namespace CurveVis

/-- When the curve-visualizer tokenizer reaches a `^`, it fails at once with
the dedicated exponentiation guidance. -/
theorem tokenizeGo_caret_cv (f : Nat) (rest : List Char) :
    tokenizeGo (f + 1) ('^' :: rest) =
      .error (.err "Use ** or pow(a, b) for exponents, not ^") := by
  rw [tokenizeGo]
  simp [isNumStart, isIdentStart]

/-- The curve-visualizer tokenizer never produces the generic
`Unexpected character` message for `^`. -/
theorem tokenizeGo_no_generic_caret_cv : ∀ (f : Nat) (cs : List Char),
    tokenizeGo f cs ≠ .error (.err "Unexpected character: ^") := by
  intro f cs
  induction f, cs using tokenizeGo.induct
  case case1 => intro h; simp [tokenizeGo] at h
  case case2 => intro h; simp [tokenizeGo] at h
  case case3 f c rest hws ih =>
      intro h
      rw [tokenizeGo] at h
      simp [hws] at h
      exact ih h
  case case4 f c rest hws hnum ih =>
      intro h
      rw [tokenizeGo] at h
      have hdw : List.dropWhile isNumStart (c :: rest) =
          List.dropWhile isNumStart rest := by
        simp [List.dropWhile_cons, hnum]
      rw [hdw] at ih
      cases hr : tokenizeGo f (List.dropWhile isNumStart rest) with
      | error e =>
          simp [hws, hnum, hr, bind, Except.bind] at h
          exact ih (by rw [hr, h])
      | ok toks => simp [hws, hnum, hr, bind, Except.bind] at h
  case case5 f c rest hws hnum hid ih =>
      intro h
      rw [tokenizeGo] at h
      cases hr : tokenizeGo f (scanIdent (c :: rest)).2 with
      | error e =>
          simp [hws, hnum, hid, hr, bind, Except.bind] at h
          exact ih (by rw [hr, h])
      | ok toks => simp [hws, hnum, hid, hr, bind, Except.bind] at h
  case case6 f c rest hws hnum hid hstar ih =>
      intro h
      rw [tokenizeGo] at h
      cases hr : tokenizeGo f rest.tail with
      | error e =>
          simp [hws, hnum, hid, hstar, hr, bind, Except.bind] at h
          exact ih (by rw [hr, h])
      | ok toks => simp [hws, hnum, hid, hstar, hr, bind, Except.bind] at h
  case case7 f c rest hws hnum hid hstar hops ih =>
      intro h
      rw [tokenizeGo] at h
      cases hr : tokenizeGo f rest with
      | error e =>
          simp [hws, hnum, hid, hstar, hops, hr, bind, Except.bind] at h
          exact ih (by rw [hr, h])
      | ok toks => simp [hws, hnum, hid, hstar, hops, hr, bind, Except.bind] at h
  case case8 f c rest hws hnum hid hstar hops hcaret =>
      intro h
      rw [tokenizeGo] at h
      simp [hws, hnum, hid, hstar, hops, hcaret] at h
  case case9 f c rest hws hnum hid hstar hops hcaret =>
      intro h
      rw [tokenizeGo] at h
      simp [hws, hnum, hid, hstar, hops, hcaret] at h
      exact hcaret (by simp [generic_msg_char h])

end CurveVis

namespace OfflineSim

/-- When the offline-simulator tokenizer reaches a `^`, it fails at once with
the dedicated exponentiation guidance (mentioning `Math.pow`). -/
theorem tokenizeGo_caret_os (f : Nat) (rest : List Char) :
    tokenizeGo (f + 1) ('^' :: rest) =
      .error (.err "Use Math.pow(a, b) or a ** b for exponents, not ^") := by
  rw [tokenizeGo]
  simp [isNumStart, isIdentStart]

/-- The offline-simulator tokenizer never produces the generic
`Unexpected character` message for `^`. -/
theorem tokenizeGo_no_generic_caret_os : ∀ (f : Nat) (cs : List Char),
    tokenizeGo f cs ≠ .error (.err "Unexpected character: ^") := by
  intro f cs
  induction f, cs using tokenizeGo.induct
  case case1 => intro h; simp [tokenizeGo] at h
  case case2 => intro h; simp [tokenizeGo] at h
  case case3 f c rest hws ih =>
      intro h
      rw [tokenizeGo] at h
      simp [hws] at h
      exact ih h
  case case4 f c rest hws hnum ih =>
      intro h
      rw [tokenizeGo] at h
      cases hr : tokenizeGo f (scanNum (c :: rest) "").2 with
      | error e =>
          simp [hws, hnum, hr, bind, Except.bind] at h
          exact ih (by rw [hr, h])
      | ok toks => simp [hws, hnum, hr, bind, Except.bind] at h
  case case5 f c rest hws hnum hid hmath ih =>
      intro h
      rw [tokenizeGo] at h
      cases hr : tokenizeGo f (scanIdent (scanIdent (c :: rest)).2.tail).2 with
      | error e =>
          simp [hws, hnum, hid, hmath, hr, bind, Except.bind] at h
          exact ih (by rw [hr, h])
      | ok toks => simp [hws, hnum, hid, hmath, hr, bind, Except.bind] at h
  case case6 f c rest hws hnum hid hmath ih =>
      intro h
      rw [tokenizeGo] at h
      cases hr : tokenizeGo f (scanIdent (c :: rest)).2 with
      | error e =>
          simp [hws, hnum, hid, hmath, hr, bind, Except.bind] at h
          exact ih (by rw [hr, h])
      | ok toks => simp [hws, hnum, hid, hmath, hr, bind, Except.bind] at h
  case case7 f c rest hws hnum hid hstar ih =>
      intro h
      rw [tokenizeGo] at h
      cases hr : tokenizeGo f rest.tail with
      | error e =>
          simp [hws, hnum, hid, hstar, hr, bind, Except.bind] at h
          exact ih (by rw [hr, h])
      | ok toks => simp [hws, hnum, hid, hstar, hr, bind, Except.bind] at h
  case case8 f c rest hws hnum hid hstar hops ih =>
      intro h
      rw [tokenizeGo] at h
      cases hr : tokenizeGo f rest with
      | error e =>
          simp [hws, hnum, hid, hstar, hops, hr, bind, Except.bind] at h
          exact ih (by rw [hr, h])
      | ok toks => simp [hws, hnum, hid, hstar, hops, hr, bind, Except.bind] at h
  case case9 f c rest hws hnum hid hstar hops hcaret =>
      intro h
      rw [tokenizeGo] at h
      simp [hws, hnum, hid, hstar, hops, hcaret] at h
  case case10 f c rest hws hnum hid hstar hops hcaret =>
      intro h
      rw [tokenizeGo] at h
      simp [hws, hnum, hid, hstar, hops, hcaret] at h
      exact hcaret (by simp [generic_msg_char h])

end OfflineSim

end Belforge
namespace Belforge

namespace SharedUtils

/-- `clamp` called with other than exactly 3 arguments fails with the
dedicated arity message. -/
theorem callFn_clamp_arity (args : List JsVal) (h : args.length ≠ 3) :
    callFn "clamp" args =
      .error (.err "clamp requires 3 arguments: clamp(value, min, max)") := by
  rcases args with _ | ⟨a, _ | ⟨b, _ | ⟨c, _ | ⟨d, r⟩⟩⟩⟩ <;>
    simp_all [callFn, allowedFunctions]

/-- `lerp` called with other than exactly 3 arguments fails with the
dedicated arity message. -/
theorem callFn_lerp_arity (args : List JsVal) (h : args.length ≠ 3) :
    callFn "lerp" args =
      .error (.err "lerp requires 3 arguments: lerp(a, b, t)") := by
  rcases args with _ | ⟨a, _ | ⟨b, _ | ⟨c, _ | ⟨d, r⟩⟩⟩⟩ <;>
    simp_all [callFn, allowedFunctions]

/-- Every whitelisted function other than `clamp` and `lerp` is dispatched
to `Math[name](...args)` with NO arity check of any kind. -/
theorem callFn_other (name : String) (args : List JsVal)
    (hw : allowedFunctions.contains name = true)
    (h1 : name ≠ "clamp") (h2 : name ≠ "lerp") :
    callFn name args = .ok (mathApply name args) := by
  unfold callFn
  rw [if_pos hw, if_neg h1, if_neg h2]

end SharedUtils

namespace OfflineSim

/-- In the offline simulator too, `clamp` called with other than exactly 3
arguments fails with the dedicated arity message. -/
theorem callFn_clamp_arity_os (args : List JsVal) (h : args.length ≠ 3) :
    callFn "clamp" args =
      .error (.err "clamp requires 3 arguments: clamp(value, min, max)") := by
  rcases args with _ | ⟨a, _ | ⟨b, _ | ⟨c, _ | ⟨d, r⟩⟩⟩⟩ <;>
    simp_all [callFn, allowedFunctions]

/-- The offline simulator has no `lerp` in its whitelist, so a `lerp` call
fails with the unknown-function message whatever the argument count. -/
theorem callFn_no_lerp_os (args : List JsVal) :
    callFn "lerp" args =
      .error (.err "Unknown or disallowed function: lerp") := by
  simp [callFn, allowedFunctions]

end OfflineSim

/-! ### The claims -/

/-- C1: Identifier resolution order differs between the copies.  In the
shared-utilities and offline-simulator copies a bare identifier bound in the
caller-supplied variables resolves to the variable's value (variables are
checked before constants), but the curve-visualizer copy checks the constant
registry FIRST, so there a registry constant shadows a variable binding of
the same name: `PI` with the binding `PI = 0` still evaluates to the
registry's value of π. -/
theorem claim_C1_variable_shadowing :
    (∀ (vars : Vars) (name : String) (pos : Nat) (v : JsVal),
      List.lookup name vars = some v →
        SharedUtils.resolveName vars name pos = .ok (v, pos + 1) ∧
        OfflineSim.resolveName vars name pos = .ok (v, pos + 1)) ∧
    SharedUtils.evaluate "PI" [("PI", JsVal.num 0)] = .ok (JsVal.num 0) ∧
    CurveVis.safeEval "PI" [("PI", JsVal.num 0)] =
      .ok (JsVal.num ((884279719003555 : ℚ) / 281474976710656)) := by
  refine ⟨fun vars name pos v h => ⟨?_, ?_⟩, by decide, by decide⟩
  · rw [SharedUtils.resolveName, h]
  · rw [OfflineSim.resolveName, h]

/-- C1 counterexample: in the curve-visualizer copy the caller-supplied
binding `PI = 0` is NOT returned — the constant registry wins. -/
theorem claim_C1_cex :
    CurveVis.safeEval "PI" [("PI", JsVal.num 0)] ≠ .ok (JsVal.num 0) := by
  decide

/-- C1 witness: the variables-first branches at a concrete binding. -/
theorem claim_C1_witness :
    SharedUtils.resolveName [("x", JsVal.num 7)] "x" 0 =
      .ok (JsVal.num 7, 1) ∧
    OfflineSim.resolveName [("x", JsVal.num 7)] "x" 0 =
      .ok (JsVal.num 7, 1) :=
  claim_C1_variable_shadowing.1 [("x", JsVal.num 7)] "x" 0 (JsVal.num 7)
    (by decide)

/-- C2: the left operand of `**` comes from the unary rule, so a leading
minus binds to the base before exponentiation: for well-formed numeric
literals `a` and `b`, `evaluate "-a ** b"` is `pow (-a) b`; in particular
`-2 ** 2` evaluates to `4` in all three copies. -/
theorem claim_C2_unary_minus_pow :
    (∀ a b : String, SharedUtils.GoodLit a → SharedUtils.GoodLit b →
      SharedUtils.evaluate ("-" ++ a ++ " ** " ++ b) [] =
        .ok (JsVal.pow (JsVal.neg (floatOrNaN a)) (floatOrNaN b))) ∧
    SharedUtils.safeEval "-2 ** 2" [] = .ok (JsVal.num 4) ∧
    CurveVis.safeEval "-2 ** 2" [] = .ok (JsVal.num 4) ∧
    OfflineSim.evaluateFormula "-2 ** 2" [] = .ok (JsVal.num 4) := by
  exact ⟨fun a b ha hb => SharedUtils.evaluate_neg_pow a b ha hb,
    by decide, by decide, by decide⟩

/-- C2 witness: the general statement instantiated at `-2 ** 2`. -/
theorem claim_C2_witness :
    SharedUtils.evaluate ("-" ++ "2" ++ " ** " ++ "2") [] =
      .ok (JsVal.pow (JsVal.neg (floatOrNaN "2")) (floatOrNaN "2")) :=
  claim_C2_unary_minus_pow.1 "2" "2" (by decide) (by decide)

/-- C3: `**` is right-associative: for well-formed numeric literals `a`,
`b`, `c`, `evaluate "a ** b ** c"` equals `evaluate "a ** (b ** c)"`, both
being `pow a (pow b c)`; in particular `2 ** 3 ** 2` evaluates to `512` in
all three copies. -/
theorem claim_C3_pow_right_assoc :
    (∀ a b c : String, SharedUtils.GoodLit a → SharedUtils.GoodLit b →
      SharedUtils.GoodLit c →
      SharedUtils.evaluate (a ++ " ** " ++ b ++ " ** " ++ c) [] =
        SharedUtils.evaluate (a ++ " ** (" ++ b ++ " ** " ++ c ++ ")") [] ∧
      SharedUtils.evaluate (a ++ " ** " ++ b ++ " ** " ++ c) [] =
        .ok (JsVal.pow (floatOrNaN a)
          (JsVal.pow (floatOrNaN b) (floatOrNaN c)))) ∧
    SharedUtils.safeEval "2 ** 3 ** 2" [] = .ok (JsVal.num 512) ∧
    CurveVis.safeEval "2 ** 3 ** 2" [] = .ok (JsVal.num 512) ∧
    OfflineSim.evaluateFormula "2 ** 3 ** 2" [] = .ok (JsVal.num 512) := by
  refine ⟨fun a b c ha hb hc => ⟨?_, ?_⟩, by decide, by decide, by decide⟩
  · rw [SharedUtils.evaluate_pow_pow a b c ha hb hc,
      SharedUtils.evaluate_pow_paren a b c ha hb hc]
  · exact SharedUtils.evaluate_pow_pow a b c ha hb hc

/-- C3 witness: the general statement instantiated at `2 ** 3 ** 2`. -/
theorem claim_C3_witness :
    SharedUtils.evaluate ("2" ++ " ** " ++ "3" ++ " ** " ++ "2") [] =
      SharedUtils.evaluate ("2" ++ " ** (" ++ "3" ++ " ** " ++ "2" ++ ")") [] :=
  (claim_C3_pow_right_assoc.1 "2" "3" "2" (by decide) (by decide)
    (by decide)).1

/-- C4: the shared-utilities `safeEval` facade never returns a non-finite
value: an `ok` result is neither `NaN` nor infinite, and whenever the
evaluator's result is `NaN` or infinite the facade fails with
`Expression must return a valid number` — in particular on `1/0`.  (The
curve-visualizer copy has no such facade check; see the counterexample.) -/
theorem claim_C4_facade_finiteness :
    (∀ (expr : String) (vars : Vars) (v : JsVal),
      SharedUtils.safeEval expr vars = .ok v →
        v.isNaN = false ∧ v.isFiniteNum = true) ∧
    (∀ (expr : String) (vars : Vars) (v : JsVal),
      SharedUtils.evaluate expr vars = .ok v →
      (v.isNaN || !v.isFiniteNum) = true →
        SharedUtils.safeEval expr vars =
          .error (.err "Expression must return a valid number")) ∧
    SharedUtils.safeEval "1/0" [] =
      .error (.err "Expression must return a valid number") :=
  ⟨SharedUtils.safeEval_ok_finite, SharedUtils.safeEval_rejects_nonfinite,
    by decide⟩

/-- C4 counterexample: the curve-visualizer `safeEval` returns the raw
`Infinity` for `1/0` — it has no finiteness facade. -/
theorem claim_C4_cex : CurveVis.safeEval "1/0" [] = .ok JsVal.posInf := by
  decide

/-- C4 witness: the rejection branch applied at `1/0`, whose evaluator
result is `+Infinity`. -/
theorem claim_C4_witness :
    SharedUtils.safeEval "1/0" [] =
      .error (.err "Expression must return a valid number") :=
  claim_C4_facade_finiteness.2.1 "1/0" [] JsVal.posInf (by decide) (by decide)

/-- C5: arity checking differs per copy.  In the shared-utils copy only
`clamp` and `lerp` carry an arity check (exactly 3 arguments, with a
dedicated message naming the signature), and every other whitelisted
function is dispatched with whatever arguments were parsed: `min(5)`
succeeds and returns `5` (no "at least 2" check), and `pow(2)` succeeds with
the missing argument read as `undefined`, evaluating to `NaN` rather than
failing.  The offline simulator checks `clamp` the same way and has no
`lerp` at all.  The curve-visualizer copy has NO arity check anywhere: its
`clamp` and `lerp` are plain functions, so wrong-arity calls such as
`clamp(5)` and `lerp(1, 2)` yield `NaN` instead of a dedicated error. -/
theorem claim_C5_arity_checks :
    (∀ args : List JsVal, args.length ≠ 3 →
      SharedUtils.callFn "clamp" args =
        .error (.err "clamp requires 3 arguments: clamp(value, min, max)") ∧
      SharedUtils.callFn "lerp" args =
        .error (.err "lerp requires 3 arguments: lerp(a, b, t)")) ∧
    (∀ (name : String) (args : List JsVal),
      SharedUtils.allowedFunctions.contains name = true → name ≠ "clamp" →
      name ≠ "lerp" →
        SharedUtils.callFn name args = .ok (mathApply name args)) ∧
    SharedUtils.evaluate "min(5)" [] = .ok (JsVal.num 5) ∧
    SharedUtils.evaluate "pow(2)" [] = .ok JsVal.nan ∧
    (∀ args : List JsVal, args.length ≠ 3 →
      OfflineSim.callFn "clamp" args =
        .error (.err "clamp requires 3 arguments: clamp(value, min, max)")) ∧
    (∀ args : List JsVal, OfflineSim.callFn "lerp" args =
      .error (.err "Unknown or disallowed function: lerp")) ∧
    (∃ fn, CurveVis.functions "clamp" = some fn ∧
      ∀ v : JsVal, fn [v] = JsVal.nan) ∧
    (∃ fn, CurveVis.functions "lerp" = some fn ∧
      ∀ a b : JsVal, fn [a, b] = JsVal.nan) ∧
    CurveVis.safeEval "clamp(5)" [] = .ok JsVal.nan ∧
    CurveVis.safeEval "lerp(1, 2)" [] = .ok JsVal.nan := by
  refine ⟨fun args h => ⟨SharedUtils.callFn_clamp_arity args h,
      SharedUtils.callFn_lerp_arity args h⟩,
    SharedUtils.callFn_other, by decide, by decide,
    OfflineSim.callFn_clamp_arity_os, OfflineSim.callFn_no_lerp_os,
    ⟨_, rfl, fun v => ?_⟩, ⟨_, rfl, fun a b => ?_⟩, by decide, by decide⟩
  · simp [argD, JsVal.min2, JsVal.max2, JsVal.isNaN]
  · cases a <;> cases b <;> rfl

/-- C5 counterexample: `min` called with a single argument does not fail —
the whole expression evaluates to `5` through the facade as well. -/
theorem claim_C5_cex : SharedUtils.safeEval "min(5)" [] = .ok (JsVal.num 5) := by
  decide

/-- C5 witness: the `clamp` arity branch at zero arguments. -/
theorem claim_C5_witness :
    SharedUtils.callFn "clamp" [] =
      .error (.err "clamp requires 3 arguments: clamp(value, min, max)") :=
  (claim_C5_arity_checks.1 [] (by decide)).1

/-- C6: the shared-utilities registry implements
`clamp(value, min, max) = min(max(value, min), max)` and
`lerp(a, b, t) = a + (b - a) * t`, and both are callable there:
`clamp(150, 0, 100)` evaluates to `100` and `lerp(0, 10, 0.5)` to `5`.
(The offline-simulator registry has no `lerp`; see the counterexample.) -/
theorem claim_C6_clamp_lerp :
    (∀ v lo hi : JsVal, SharedUtils.callFn "clamp" [v, lo, hi] =
      .ok (JsVal.min2 (JsVal.max2 v lo) hi)) ∧
    (∀ a b t : JsVal, SharedUtils.callFn "lerp" [a, b, t] =
      .ok (JsVal.add a (JsVal.mul (JsVal.sub b a) t))) ∧
    SharedUtils.evaluate "clamp(150, 0, 100)" [] = .ok (JsVal.num 100) ∧
    SharedUtils.evaluate "lerp(0, 10, 0.5)" [] = .ok (JsVal.num 5) := by
  refine ⟨fun v lo hi => ?_, fun a b t => ?_, by decide, by decide⟩
  · rfl
  · rfl

/-- C6 counterexample: `lerp` is not in the offline-simulator whitelist, so
`lerp(0, 10, 0.5)` fails there instead of returning `5`. -/
theorem claim_C6_cex :
    OfflineSim.evaluateFormula "lerp(0, 10, 0.5)" [] =
      .error (.err "Formula error: Unknown or disallowed function: lerp") := by
  decide

/-- C6 witness: the clamp formula at the concrete arguments `150, 0, 100`. -/
theorem claim_C6_witness :
    SharedUtils.callFn "clamp" [JsVal.num 150, JsVal.num 0, JsVal.num 100] =
      .ok (JsVal.min2 (JsVal.max2 (JsVal.num 150) (JsVal.num 0))
        (JsVal.num 100)) :=
  claim_C6_clamp_lerp.1 (JsVal.num 150) (JsVal.num 0) (JsVal.num 100)

/-- C7: in all three copies, whenever the tokenizer reaches a `^` it fails at
once with the dedicated exponentiation guidance; and no run of any of the
three tokenizers ever produces the generic message `Unexpected character: ^`.
In particular `2^3` fails with the dedicated message in all three copies. -/
theorem claim_C7_caret_dedicated :
    (∀ (f : Nat) (rest : List Char),
      SharedUtils.tokenizeGo (f + 1) ('^' :: rest) =
        .error (.err "Use ** or pow(a, b) for exponents, not ^") ∧
      CurveVis.tokenizeGo (f + 1) ('^' :: rest) =
        .error (.err "Use ** or pow(a, b) for exponents, not ^") ∧
      OfflineSim.tokenizeGo (f + 1) ('^' :: rest) =
        .error (.err "Use Math.pow(a, b) or a ** b for exponents, not ^")) ∧
    (∀ (f : Nat) (cs : List Char),
      SharedUtils.tokenizeGo f cs ≠
        .error (.err "Unexpected character: ^") ∧
      CurveVis.tokenizeGo f cs ≠
        .error (.err "Unexpected character: ^") ∧
      OfflineSim.tokenizeGo f cs ≠
        .error (.err "Unexpected character: ^")) ∧
    SharedUtils.tokenize "2^3" =
      .error (.err "Use ** or pow(a, b) for exponents, not ^") ∧
    CurveVis.tokenize "2^3" =
      .error (.err "Use ** or pow(a, b) for exponents, not ^") ∧
    OfflineSim.tokenize "2^3" =
      .error (.err "Use Math.pow(a, b) or a ** b for exponents, not ^") :=
  ⟨fun f rest => ⟨SharedUtils.tokenizeGo_caret f rest,
      CurveVis.tokenizeGo_caret_cv f rest, OfflineSim.tokenizeGo_caret_os f rest⟩,
    fun f cs => ⟨SharedUtils.tokenizeGo_no_generic_caret f cs,
      CurveVis.tokenizeGo_no_generic_caret_cv f cs,
      OfflineSim.tokenizeGo_no_generic_caret_os f cs⟩,
    by decide, by decide, by decide⟩

/-- C8: the shared-utilities tokenizer never emits a `NaN`-valued number
token — the single `.` fails there with `Invalid number: .` — but the claim
is false of the other two copies, whose tokenizers push `parseFloat` of the
captured text unchecked (see the counterexample). -/
theorem claim_C8_no_nan_tokens :
    (∀ (s : String) (toks : List Token), SharedUtils.tokenize s = .ok toks →
      ∀ v : JsVal, Token.num v ∈ toks → v.isNaN = false) ∧
    SharedUtils.tokenize "." = .error (.err "Invalid number: .") :=
  ⟨fun s toks h => SharedUtils.tokenizeGo_no_nan _ s.data toks h, by decide⟩

/-- C8 counterexample: the curve-visualizer and offline-simulator tokenizers
emit a `NaN`-valued number token for the input `.`. -/
theorem claim_C8_cex :
    CurveVis.tokenize "." = .ok [Token.num JsVal.nan] ∧
    OfflineSim.tokenize "." = .ok [Token.num JsVal.nan] :=
  ⟨by decide, by decide⟩

/-- C8 witness: the no-`NaN` invariant read off a concrete successful
tokenization. -/
theorem claim_C8_witness : (JsVal.num 2).isNaN = false :=
  claim_C8_no_nan_tokens.1 "2" [Token.num (JsVal.num 2)] (by decide)
    (JsVal.num 2) (by decide)

/-- C10: for every input string and variable mapping, the shared-utilities
tokenizer and recursive-descent evaluator terminate with a value or an
error: the fuel linear in the input length (each tokenizer step consumes at
least one character, each parser cycle at least one token) is never
exhausted, and a successful tokenization emits at most one token per input
character. -/
theorem claim_C10_termination (expr : String) (vars : Vars) :
    SharedUtils.tokenize expr ≠ .error .fuel ∧
    (∀ toks : List Token, SharedUtils.tokenize expr = .ok toks →
      toks.length ≤ expr.data.length) ∧
    SharedUtils.evaluate expr vars ≠ .error .fuel ∧
    SharedUtils.safeEval expr vars ≠ .error .fuel :=
  ⟨SharedUtils.tokenize_ne_fuel expr,
    fun toks h => SharedUtils.tokenize_count h,
    SharedUtils.evaluate_ne_fuel expr vars,
    SharedUtils.safeEval_ne_fuel expr vars⟩

end Belforge
